import Mathlib

/-!
Verification of the sdcv StarDict lookup engine core (`src/stardict_lib.cpp`).

Headwords are modelled as the lists of their non-NUL bytes (a C string is its
byte sequence up to the terminating NUL, so the elements of a well-formed
headword are in 1..255; the predicate `NoNul` records this where a proof
needs it).  Machine integers (`gint`, `glong`) are modelled as `Int`; the
index sizes arising here are far below any overflow boundary.
-/

namespace Sdcv

/-- Models `g_ascii_isupper` from glib: ASCII letter between 0x41 and 0x5a. -/
def g_ascii_isupper (c : Nat) : Bool := 65 ≤ c && c ≤ 90

/-- Models `g_ascii_islower` from glib. -/
def g_ascii_islower (c : Nat) : Bool := 97 ≤ c && c ≤ 122

/-- Models `g_ascii_tolower` from glib: add 0x20 to an ASCII upper-case letter. -/
def g_ascii_tolower (c : Nat) : Nat := if g_ascii_isupper c then c + 32 else c

/-- Models `g_ascii_isspace` from glib: space, \t, \n, \v, \f, \r. -/
def g_ascii_isspace (c : Nat) : Bool :=
  c = 32 || c = 9 || c = 10 || c = 11 || c = 12 || c = 13

/-- Models C `strcmp` on byte lists: advance while the current byte of the
first string is non-NUL and equal to the byte of the second; return the
difference of the first differing bytes (an exhausted list stands for the
terminating NUL, value 0). -/
def strcmp : List Nat → List Nat → Int
  | [], [] => 0
  | [], b :: _ => -(b : Int)
  | a :: _, [] => (a : Int)
  | a :: as, b :: bs => if a ≠ 0 ∧ a = b then strcmp as bs else (a : Int) - (b : Int)

/-- Models glib `g_ascii_strcasecmp`: advance while both bytes are non-NUL and
equal after `g_ascii_tolower`; return the difference of the case-folded bytes
at the first difference (or at a terminator). -/
def g_ascii_strcasecmp : List Nat → List Nat → Int
  | [], [] => 0
  | [], b :: _ => -(g_ascii_tolower b : Int)
  | a :: _, [] => (g_ascii_tolower a : Int)
  | a :: as, b :: bs =>
    if a ≠ 0 ∧ b ≠ 0 ∧ g_ascii_tolower a = g_ascii_tolower b then g_ascii_strcasecmp as bs
    else (g_ascii_tolower a : Int) - (g_ascii_tolower b : Int)

/-- Models `stardict_strcmp` (stardict_lib.cpp, lines 59-66): case-insensitive
primary comparison, byte-wise tiebreak. -/
def stardict_strcmp (s1 s2 : List Nat) : Int :=
  let a := g_ascii_strcasecmp s1 s2
  if a = 0 then strcmp s1 s2 else a

/-- A well-formed C-string headword has no interior NUL byte. -/
def NoNul (l : List Nat) : Prop := ∀ c ∈ l, c ≠ 0

instance (l : List Nat) : Decidable (NoNul l) := by
  unfold NoNul; infer_instance

/-- Result of the shared binary-search loop: the C locals `bFound`,
`iThisIndex`, `iFrom`, `iTo` at loop exit. -/
structure BsResult where
  found : Bool
  idx : Int
  lo : Int
  hi : Int
  deriving Repr, DecidableEq

/-- Fuel-indexed embedding of the `while (iFrom <= iTo)` binary-search loop
shared by `WordListIndex::lookup`, `OffsetIndex::lookup` and `SynFile::lookup`
(stardict_lib.cpp, lines 702-713, 730-741, 810-821): probe the middle index,
narrow the bracket by the sign of `stardict_strcmp`.  The fuel only bounds the
iteration count; `bsearch` supplies enough for the loop to run to completion. -/
def bsGo (k : Int → List Nat) (s : List Nat) : Nat → Int → Int → BsResult
  | 0, iFrom, iTo => ⟨false, 0, iFrom, iTo⟩
  | fuel + 1, iFrom, iTo =>
    if iFrom ≤ iTo then
      let iThisIndex := (iFrom + iTo) / 2
      let cmpint := stardict_strcmp s (k iThisIndex)
      if 0 < cmpint then bsGo k s fuel (iThisIndex + 1) iTo
      else if cmpint < 0 then bsGo k s fuel iFrom (iThisIndex - 1)
      else ⟨true, iThisIndex, iFrom, iTo⟩
    else ⟨false, 0, iFrom, iTo⟩

/-- The binary-search loop run to completion on the bracket `[iFrom, iTo]`. -/
def bsearch (k : Int → List Nat) (s : List Nat) (iFrom iTo : Int) : BsResult :=
  bsGo k s ((iTo + 1 - iFrom).toNat + 1) iFrom iTo

/-- Fuel-indexed embedding of the backward duplicate walk
`while (iHeadIndex >= 0 && stardict_strcmp(str, get_key(iHeadIndex)) == 0)
idxs.insert(iHeadIndex--);` (lines 752-753, 828-829). -/
def walkDownGo (k : Int → List Nat) (s : List Nat) : Nat → Int → Finset Int
  | 0, _ => ∅
  | fuel + 1, i =>
    if 0 ≤ i ∧ stardict_strcmp s (k i) = 0 then insert i (walkDownGo k s fuel (i - 1))
    else ∅

/-- The backward walk started at `iThisIndex - 1`, run to completion. -/
def walkDown (k : Int → List Nat) (s : List Nat) (i : Int) : Finset Int :=
  walkDownGo k s (i.toNat + 2) i

/-- Fuel-indexed embedding of the forward duplicate walk
`do idxs.insert(iThisIndex++); while (iThisIndex <= iLast && stardict_strcmp
(str, get_key(iThisIndex)) == 0);` (lines 754-756, 830-832): a do-while, so
the starting index is always inserted. -/
def walkUpGo (k : Int → List Nat) (s : List Nat) (iLast : Int) : Nat → Int → Finset Int
  | 0, i => {i}
  | fuel + 1, i =>
    insert i
      (if i + 1 ≤ iLast ∧ stardict_strcmp s (k (i + 1)) = 0 then
        walkUpGo k s iLast fuel (i + 1)
      else ∅)

/-- The forward walk started at the found index, run to completion. -/
def walkUp (k : Int → List Nat) (s : List Nat) (iLast : Int) (i : Int) : Finset Int :=
  walkUpGo k s iLast ((iLast - i).toNat + 1) i

/-- Modelled from the spec: the sentinel `INVALID_INDEX` is declared in
`stardict_lib.hpp`, which is absent from the sources; §4.7 of the spec fixes
it as "`-1` or equivalent" (a value distinct from every valid index). -/
def INVALID_INDEX : Int := -1

/-- An index as seen by lookups: the ordered list of headwords.  `get_key i`
returns the i-th headword (`WordListIndex::get_key`, line 493, and
`OffsetIndex::get_key`, lines 677-685, whose demand paging is observationally
this access). -/
def get_key (ks : List (List Nat)) (i : Int) : List Nat := ks.getD i.toNat []

/-- Outcome of an index `lookup`: the flag returned, the set of indices
inserted into the caller's `std::set`, and the value stored into `next_idx`
(`none` when the code leaves `next_idx` unassigned, as it does on a hit). -/
structure LookupResult where
  found : Bool
  idxs : Finset Int
  next_idx : Option Int
  deriving DecidableEq

/-- Embedding of `WordListIndex::lookup` (stardict_lib.cpp, lines 797-836):
bracket checks against the first and last key, binary search over the whole
index, duplicate walk on a hit, insertion point into `next_idx` on a miss. -/
def WordListIndex_lookup (ks : List (List Nat)) (s : List Nat) : LookupResult :=
  let k := get_key ks
  let iLast : Int := (ks.length : Int) - 1
  if stardict_strcmp s (k 0) < 0 then ⟨false, ∅, some 0⟩
  else if 0 < stardict_strcmp s (k iLast) then ⟨false, ∅, some INVALID_INDEX⟩
  else
    let r := bsearch k s 0 iLast
    if r.found then
      ⟨true, walkDown k s (r.idx - 1) ∪ walkUp k s iLast r.idx, none⟩
    else ⟨false, ∅, some r.lo⟩

/-- `ENTR_PER_PAGE` (stardict_lib.cpp, line 442). -/
def ENTR_PER_PAGE : Int := 32

/-- Embedding of `OffsetIndex::lookup` (stardict_lib.cpp, lines 687-759):
bracket checks against the cached `first` and `real_last` anchors, an outer
binary search over page-first keys (`get_first_on_page_key p` is the key at
index `32*p`), then — when no page-first key matches — an inner binary search
inside page `iTo`, whose entry count is 32 except on the last page
(`wordcount % 32`, with 0 meaning 32, `load_page`, lines 658-663).  On a hit
the duplicate walk runs over global indices bounded by `real_last.idx`. -/
def OffsetIndex_lookup (ks : List (List Nat)) (s : List Nat) : LookupResult :=
  let k := get_key ks
  let wc : Int := (ks.length : Int)
  let iLastPage : Int := (wc - 1) / ENTR_PER_PAGE
  if stardict_strcmp s (k 0) < 0 then ⟨false, ∅, some 0⟩
  else if 0 < stardict_strcmp s (k (wc - 1)) then ⟨false, ∅, some INVALID_INDEX⟩
  else
    let outer := bsearch (fun p => k (ENTR_PER_PAGE * p)) s 0 iLastPage
    if outer.found then
      let iThisIndex := ENTR_PER_PAGE * outer.idx
      ⟨true, walkDown k s (iThisIndex - 1) ∪ walkUp k s (wc - 1) iThisIndex, none⟩
    else
      let iPage := outer.hi
      let netr : Int :=
        if iPage = iLastPage then
          (if wc % ENTR_PER_PAGE = 0 then ENTR_PER_PAGE else wc % ENTR_PER_PAGE)
        else ENTR_PER_PAGE
      let inner := bsearch (fun j => k (ENTR_PER_PAGE * iPage + j)) s 0 (netr - 1)
      if inner.found then
        let iThisIndex := ENTR_PER_PAGE * iPage + inner.idx
        ⟨true, walkDown k s (iThisIndex - 1) ∪ walkUp k s (wc - 1) iThisIndex, none⟩
      else ⟨false, ∅, some (ENTR_PER_PAGE * iPage + inner.lo)⟩

/-- Invariant I1: the index entries ascend under the comparator. -/
def SortedIdx (ks : List (List Nat)) : Prop :=
  ks.Pairwise (fun a b => stardict_strcmp a b ≤ 0)

instance (ks : List (List Nat)) : Decidable (SortedIdx ks) := by
  unfold SortedIdx; infer_instance

/-- Every headword of the index is a well-formed C string. -/
def NoNulIdx (ks : List (List Nat)) : Prop := ∀ w ∈ ks, NoNul w

instance (ks : List (List Nat)) : Decidable (NoNulIdx ks) := by
  unfold NoNulIdx; infer_instance

/-- Carriage return or line feed, the value terminators of the ifo parser. -/
def isCRLF (c : Nat) : Bool := c = 13 || c = 10

/-- Fuel-indexed embedding of the `.ifo` body parsing loop
(`DictInfo::load_from_ifo_file`, stardict_lib.cpp, lines 106-128): skip ASCII
whitespace to the key start; fail when no `=` occurs up to end of file; skip
ASCII whitespace after the `=` to the value start (possibly crossing line
ends); take the value up to the next CR/LF or end of file; continue after the
line end.  The returned association list carries the pairs in parse order;
`std::map::insert` keeps the first occurrence of a key, which first-match
lookup reproduces. -/
def parseIfoStep (recur : List Nat → Option (List (List Nat × List Nat)))
    (p : List Nat) : Option (List (List Nat × List Nat)) :=
  let p1 := p.dropWhile (fun c => g_ascii_isspace c)
  if p1 = [] then some []
  else
    let key := p1.takeWhile (fun c => c ≠ 61)
    let rest := p1.dropWhile (fun c => c ≠ 61)
    if rest = [] then none
    else
      let pv := rest.tail.dropWhile (fun c => g_ascii_isspace c)
      if pv = [] then some [(key, [])]
      else
        let v := pv.takeWhile (fun c => ¬(isCRLF c = true))
        let restv := pv.dropWhile (fun c => ¬(isCRLF c = true))
        if restv = [] then some [(key, v)]
        else
          match recur restv.tail with
          | none => none
          | some kvs => some ((key, v) :: kvs)

/-- The body parsing loop with its iterations unfolded on fuel. -/
def parseIfoBodyGo : Nat → List Nat → Option (List (List Nat × List Nat))
  | 0, _ => none
  | fuel + 1, p => parseIfoStep (parseIfoBodyGo fuel) p

/-- The ifo body parsing loop run to completion. -/
def parseIfoBody (p : List Nat) : Option (List (List Nat × List Nat)) :=
  parseIfoBodyGo (p.length + 1) p

/-- Digit-accumulation loop of C `atol`. -/
def atolDigits : List Nat → Nat → Nat
  | [], acc => acc
  | c :: r, acc => if 48 ≤ c ∧ c ≤ 57 then atolDigits r (acc * 10 + (c - 48)) else acc

/-- Models C `atol`: skip whitespace, optional sign, then decimal digits up to
the first non-digit (0 when there are none). -/
def atol (l : List Nat) : Int :=
  match l.dropWhile (fun c => g_ascii_isspace c) with
  | 43 :: r => (atolDigits r 0 : Int)
  | 45 :: r => -(atolDigits r 0 : Int)
  | l1 => (atolDigits l1 0 : Int)

/-- The byte string `StarDict's dict ifo file` (`DICT_MAGIC_DATA`, line 89). -/
def DICT_MAGIC_DATA : List Nat :=
  [83, 116, 97, 114, 68, 105, 99, 116, 39, 115, 32, 100, 105, 99, 116, 32, 105,
   102, 111, 32, 102, 105, 108, 101]

/-- The UTF-8 byte-order mark (line 92). -/
def utf8_bom : List Nat := [239, 187, 191]

/-- First-match lookup in the parsed key-value list, the observable behavior
of `key_value_map.find` given that `std::map::insert` keeps the first entry
for a key. -/
def lookupKV (kvs : List (List Nat × List Nat)) (key : List Nat) : Option (List Nat) :=
  (kvs.find? (fun kv => kv.1 = key)).map (fun kv => kv.2)

/-- The fields of `DictInfo` that `Dict::load_ifofile` consumes. -/
structure DictInfo where
  wordcount : Int
  index_file_size : Int
  bookname : List Nat
  sametypesequence : List Nat
  syn_wordcount : Int
  deriving Repr, DecidableEq

/-- Embedding of `DictInfo::load_from_ifo_file` on the file contents, with
`istreedict = false` as `Dict::load_ifofile` calls it (lines 77-170, 970):
skip an optional BOM, require the dict magic header, parse the body, then
require `wordcount`, `idxfilesize` and `bookname`; `sametypesequence` and
`synwordcount` are optional.  `none` models `return false`. -/
def load_from_ifo_file (content : List Nat) : Option DictInfo :=
  let p := if utf8_bom.isPrefixOf content then content.drop 3 else content
  if DICT_MAGIC_DATA.isPrefixOf p then
    match parseIfoBody (p.drop DICT_MAGIC_DATA.length) with
    | none => none
    | some kvs =>
      match lookupKV kvs [119, 111, 114, 100, 99, 111, 117, 110, 116],
            lookupKV kvs [105, 100, 120, 102, 105, 108, 101, 115, 105, 122, 101],
            lookupKV kvs [98, 111, 111, 107, 110, 97, 109, 101] with
      | some wcv, some szv, some bnv =>
        some ⟨atol wcv, atol szv, bnv,
          (lookupKV kvs
            [115, 97, 109, 101, 116, 121, 112, 101, 115, 101, 113, 117, 101,
             110, 99, 101]).getD [],
          ((lookupKV kvs
            [115, 121, 110, 119, 111, 114, 100, 99, 111, 117, 110, 116]).map
            atol).getD 0⟩
      | _, _, _ => none
  else none

/-- Embedding of `Dict::load_ifofile` (stardict_lib.cpp, lines 967-985):
reject the dictionary when the ifo fails to parse or when its `wordcount`
is 0. -/
def Dict_load_ifofile (content : List Nat) : Option DictInfo :=
  match load_from_ifo_file content with
  | none => none
  | some di => if di.wordcount = 0 then none else some di

/-- Embedding of `Dict::load` (stardict_lib.cpp, lines 921-965) over the ifo
contents and the outcomes of opening the companion files: the `.dict`/.dz
open and the index load must succeed; the `.syn` load result is ignored
(line 961). -/
def Dict_load (content : List Nat) (dictOk idxOk : Bool) : Bool :=
  match Dict_load_ifofile content with
  | none => false
  | some _ => dictOk && idxOk

/-- The query kinds of `query_t` (stardict_lib.hpp; values used at lines
1550-1583). -/
inductive query_t where
  | qtSIMPLE
  | qtREGEXP
  | qtFUZZY
  | qtDATA
  deriving Repr, DecidableEq

/-- Embedding of the scanning loop of `analyze_query` (stardict_lib.cpp,
lines 1566-1578): `for (; *p; res += *p, ++p)` — on a backslash the pointer
advances and, unless the string ended, the escaped byte is appended by the
for-update (`continue`); a `*` or `?` seen unescaped sets the regexp flag;
every other byte is appended. -/
def anaLoop : List Nat → Bool → Bool × List Nat
  | [], rg => (rg, [])
  | c :: rest, rg =>
    if c = 92 then
      match rest with
      | [] => (rg, [])
      | d :: rest2 =>
        let r := anaLoop rest2 rg
        (r.1, d :: r.2)
    else
      let r := anaLoop rest (rg || (c = 42 || c = 63))
      (r.1, c :: r.2)

/-- Embedding of `analyze_query` (stardict_lib.cpp, lines 1550-1583). -/
def analyze_query (s : List Nat) : query_t × List Nat :=
  match s with
  | [] => (query_t.qtSIMPLE, [])
  | c :: rest =>
    if c = 47 then (query_t.qtFUZZY, rest)
    else if c = 124 then (query_t.qtDATA, rest)
    else
      let r := anaLoop (c :: rest) false
      (if r.1 then query_t.qtREGEXP else query_t.qtSIMPLE, r.2)

/-- Written from the claim: the query string with escape prefixes (a `\`
before a byte) removed; a dangling final `\` escapes the terminator and
disappears. -/
def removeEscapes : List Nat → List Nat
  | [] => []
  | c :: r =>
    if c = 92 then
      match r with
      | [] => []
      | d :: r2 => d :: removeEscapes r2
    else c :: removeEscapes r

/-- Written from the claim: the query contains a `*` or `?` that is not
preceded by an escaping `\`. -/
def hasUnescapedGlob : List Nat → Bool
  | [] => false
  | c :: r =>
    if c = 92 then
      match r with
      | [] => false
      | _ :: r2 => hasUnescapedGlob r2
    else (c = 42 || c = 63) || hasUnescapedGlob r

/-- Length of the maximal all-backslash suffix of a query. -/
def trailBS : List Nat → Nat
  | [] => 0
  | c :: r => if c = 92 ∧ trailBS r = r.length then r.length + 1 else trailBS r

/-- Result of `!strncmp(&sWord[i], "XY", 2)` for a two-byte pattern: the two
bytes at positions `i` and `i + 1` of the word match (an index at or past the
word length reads the terminating NUL, value 0). -/
def strncmp2_at (w : List Nat) (i : Nat) (c0 c1 : Nat) : Bool :=
  w.getD i 0 = c0 && w.getD (i + 1) 0 = c1

/-- Indices of `sWord` read by `strncmp(&sWord[i], "XY", 2)`: the byte at `i`
always, and the byte at `i + 1` only when the first byte matched (strncmp
stops at the first difference, and the pattern bytes are non-NUL). -/
def strncmp2_reads (w : List Nat) (i : Nat) (c0 : Nat) : List Nat :=
  if w.getD i 0 = c0 then [i, i + 1] else [i]

/-- The `ed`/`ED` suffix test of the trim-s/ed morphology branch
(`Libs::LookupSimilarWord`, stardict_lib.cpp, lines 1071-1073), guarded only
by `iWordLen > 1`: `!strncmp(&sWord[iWordLen - 2], "ED", 2)` and the
lower-case twin. -/
def edSuffixTest (w : List Nat) : Bool :=
  strncmp2_at w (w.length - 2) 69 68 || strncmp2_at w (w.length - 2) 101 100

/-- All indices of `sWord` that the two `ed`/`ED` suffix comparisons can
read. -/
def edSuffixReads (w : List Nat) : List Nat :=
  strncmp2_reads w (w.length - 2) 69 ++ strncmp2_reads w (w.length - 2) 101

/-- Fuel-indexed classic Levenshtein distance on code-point lists; insertion,
deletion and substitution cost 1. -/
def levGo : Nat → List Nat → List Nat → Nat
  | 0, a, b => a.length + b.length
  | _ + 1, [], b => b.length
  | _ + 1, a :: as, [] => (a :: as).length
  | fuel + 1, x :: xs, y :: ys =>
    min (min (levGo fuel xs (y :: ys) + 1) (levGo fuel (x :: xs) ys + 1))
      (levGo fuel xs ys + (if x = y then 0 else 1))

/-- Levenshtein distance, fuel supplied to completion. -/
def levenshtein (a b : List Nat) : Nat := levGo (a.length + b.length + 1) a b

/-- Modelled from the spec: `EditDistance::CalEditDistance` lives in
`distance.cpp`, absent from the sources.  Per §4.4 it is classic Levenshtein
on UCS-4 with the early cap "if no cell in the current row is
`< max_distance`, return `max_distance`"; the cap can fire only when the true
distance already reaches `max_distance` (every DP path passes through each
row), so the returned value is observationally `min(levenshtein,
max_distance)` for every use the caller makes of it. -/
def CalEditDistance (s1 s2 : List Nat) (max_distance : Nat) : Nat :=
  min (levenshtein s1 s2) max_distance

/-- Models `unicode_strdown` (stardict_lib.cpp, lines 68-74) via
`g_unichar_tolower` on each code point, here restricted to its ASCII
fragment; none of the properties proved below depend on the folding of
non-ASCII code points. -/
def unicode_strdown (l : List Nat) : List Nat := l.map g_ascii_tolower

/-- Modelled from the spec: `iMaxFuzzyDistance` is declared in
stardict_lib.hpp, absent from the sources; §4.11 fixes it as 3. -/
def iMaxFuzzyDistance : Nat := 3

/-- One tournament slot of `LookupWithFuzzy` (`Fuzzystruct`, stardict_lib.cpp,
lines 36-39): the matched word (null when empty) and its distance. -/
structure Fuzzystruct where
  pMatchWord : Option (List Nat)
  iMatchWordDistance : Nat
  deriving Repr, DecidableEq

/-- The truncation at lines 1385-1386: when the candidate is longer than the
query, a NUL is written at the query length, cutting the UCS-4 string there. -/
def fuzzy_trunc (lenQ : Int) (w : List Nat) : List Nat :=
  if (w.length : Int) > lenQ then w.take lenQ.toNat else w

/-- The scan for `iMaxDistanceAt` (lines 1396-1405): the index of the last
slot whose distance equals the current maximum (0 when none matches). -/
def fuzzy_last_max_at (slots : List Fuzzystruct) (maxd : Nat) : Nat :=
  (slots.foldl (fun acc sl =>
    (acc.1 + 1, if sl.iMatchWordDistance = maxd then acc.1 else acc.2))
    ((0 : Nat), (0 : Nat))).2

/-- One iteration of the candidate loop of `Libs::LookupWithFuzzy`
(stardict_lib.cpp, lines 1378-1419) over the state (Found, iMaxDistance,
slots): skip candidates whose UCS-4 length differs from the query's by at
least the current `iMaxDistance`; truncate longer candidates to the query
length; case-fold; compute the capped edit distance; on
`iDistance < iMaxDistance && iDistance < ucs4_str2_len` set Found,
deduplicate by exact string match, replace the last maximal-distance slot,
and recompute `iMaxDistance` as the maximum over the updated slots. -/
def fuzzy_step (lenQ : Int) (folded_q : List Nat)
    (st : Bool × Nat × List Fuzzystruct) (sCheck : List Nat) :
    Bool × Nat × List Fuzzystruct :=
  let iMaxDistance := st.2.1
  let slots := st.2.2
  let iCheckWordLen : Int := sCheck.length
  if iCheckWordLen - lenQ ≥ (iMaxDistance : Int) ∨
     lenQ - iCheckWordLen ≥ (iMaxDistance : Int) then st
  else
    let folded1 := unicode_strdown (fuzzy_trunc lenQ sCheck)
    let iDistance := CalEditDistance folded1 folded_q iMaxDistance
    if iDistance < iMaxDistance ∧ (iDistance : Int) < lenQ then
      if slots.any (fun sl => sl.pMatchWord = some sCheck) then
        (true, iMaxDistance, slots)
      else
        let slots2 := slots.set (fuzzy_last_max_at slots iMaxDistance)
          ⟨some sCheck, iDistance⟩
        (true,
         slots2.foldl (fun m sl => max m sl.iMatchWordDistance) iDistance,
         slots2)
    else st

/-- Embedding of `Libs::LookupWithFuzzy` (stardict_lib.cpp, lines 1346-1439)
over the library contents (each dictionary its headword list): returns the
Found flag and the final tournament slots.  The final `std::sort`
(lines 1424-1433) permutes the slots before `reslist` is filled, so the
collection of returned headwords is exactly the words of these slots. -/
def LookupWithFuzzy (oLib : List (List (List Nat))) (sWord : List Nat)
    (reslist_size : Nat) : Bool × List Fuzzystruct :=
  if sWord = [] then (false, [])
  else
    let folded_q := unicode_strdown sWord
    let lenQ : Int := (sWord.length : Int)
    let final := oLib.foldl
      (fun st lib => lib.foldl (fuzzy_step lenQ folded_q) st)
      (false, iMaxFuzzyDistance,
        List.replicate reslist_size ⟨none, iMaxFuzzyDistance⟩)
    (final.1, final.2.2)

/-- The guarantee carried by every word held in a tournament slot: the
case-folded, query-length-truncated candidate is within capped edit distance
of the case-folded query, strictly below both the initial cap 3 and the
query length, and the candidate's length differs from the query's by less
than 3. -/
def FuzzyWordOK (lenQ : Int) (fq : List Nat) (w : List Nat) : Prop :=
  levenshtein (unicode_strdown (fuzzy_trunc lenQ w)) fq < 3 ∧
  ((levenshtein (unicode_strdown (fuzzy_trunc lenQ w)) fq : Int) < lenQ) ∧
  (w.length : Int) - lenQ < 3 ∧ lenQ - (w.length : Int) < 3

/-- Invariant of the fuzzy tournament state. -/
def FuzzyInv (lenQ : Int) (fq : List Nat) (st : Bool × Nat × List Fuzzystruct) :
    Prop :=
  st.2.1 ≤ 3 ∧ (∀ sl ∈ st.2.2, sl.iMatchWordDistance ≤ 3) ∧
  (∀ sl ∈ st.2.2, ∀ w, sl.pMatchWord = some w → FuzzyWordOK lenQ fq w)

/-- One byte of the escape table in the query-splitting loop of
`Libs::LookupData` (lines 1486-1501): after a backslash, a space maps to a
space, a backslash to a backslash, `t` to TAB, `n` to LF, and any other byte
to itself. -/
def escByte (c : Nat) : Nat :=
  if c = 32 then 32
  else if c = 92 then 92
  else if c = 116 then 9
  else if c = 110 then 10
  else c

/-- The query-splitting loop of `Libs::LookupData` (lines 1483-1515).
`esc` records that the previous byte was an unconsumed backslash (the C code
instead advances `p` inside the backslash case; the two formulations consume
the same bytes). `cur` is `SearchWord`, `acc` is `SearchWords`. Only the
space byte 0x20 flushes the current token; empty tokens are dropped; the
final nonempty token is flushed after the loop. A backslash as the very last
byte makes the C code consume the NUL terminator and step past it (undefined
behaviour); the model appends the NUL byte and stops. -/
def parseSearchWordsGo (esc : Bool) (cur : List Nat) (acc : List (List Nat)) :
    List Nat → List (List Nat)
  | [] =>
    if esc then acc ++ [cur ++ [0]]
    else acc ++ if cur = [] then [] else [cur]
  | c :: s2 =>
    if esc then parseSearchWordsGo false (cur ++ [escByte c]) acc s2
    else if c = 92 then parseSearchWordsGo true cur acc s2
    else if c = 32 then
      (if cur = [] then parseSearchWordsGo false cur acc s2
       else parseSearchWordsGo false [] (acc ++ [cur]) s2)
    else parseSearchWordsGo false (cur ++ [c]) acc s2

/-- The needle list built by `Libs::LookupData` from the raw query. -/
def parseSearchWords (s : List Nat) : List (List Nat) :=
  parseSearchWordsGo false [] [] s

/-- `strstr(hay, w)` on the modelled byte lists: some suffix of the haystack
starts with the needle; an empty needle always matches. -/
def strstrB (hay w : List Nat) : Bool :=
  hay.tails.any (fun t => w.isPrefixOf t)

/-- The record field types searched by `DictBase::SearchData`
(`m t y l g x k`, lines 335-342 / 364-371 / 385-392). -/
def searchTypes : List Nat := [109, 116, 121, 108, 103, 120, 107]

/-- `get_uint32`: host-order (little-endian) read of four bytes; bytes past
the end of the modelled buffer read as 0. -/
def get_uint32 (l : List Nat) : Nat :=
  l.getD 0 0 + 256 * l.getD 1 0 + 65536 * l.getD 2 0 + 16777216 * l.getD 3 0

/-- The NUL-terminated C string starting at byte offset `pos` of the modelled
buffer (reads stop at the end of the buffer). -/
def cstr_at (data : List Nat) (pos : Nat) : List Nat :=
  (data.drop pos).takeWhile (fun c => decide (c ≠ 0))

/-- One pass of the inner needle loop of `SearchData` (lines 343-347 etc.):
each still-unfound needle is marked found when `strstr` locates it in the
current field text. -/
def markFound (ws : List (List Nat)) (found : List Bool) (hay : List Nat) :
    List Bool :=
  (found.zip ws).map (fun fw => fw.1 || strstrB hay fw.2)

/-- Field-skip width for a non-searched field type (lines 354-361 / 404-411):
an upper-case type reads a 32-bit size at the current position and skips it
plus four bytes, a lower-case one skips the NUL-terminated string and its
terminator. -/
def fieldSkip (data : List Nat) (pos : Nat) (c : Nat) : Nat :=
  if g_ascii_isupper c then get_uint32 (data.drop pos) + 4
  else (cstr_at data pos).length + 1

/-- The `sametypesequence` branch of `DictBase::SearchData` (lines 332-382):
walk the schema characters with the running byte offset and found-marks; a
searched type scans the NUL-terminated field at `pos` and returns true as
soon as every needle is marked; the final schema character, when searched,
scans only the remaining `size - pos` bytes (`g_strstr_len`, which also stops
at a NUL) and the function returns whether every needle is marked. -/
def schemaSearchGo (ws : List (List Nat)) (data : List Nat) (size : Nat) :
    List Nat → Nat → List Bool → Bool
  | [], _, _ => false
  | [c], pos, found =>
    if c ∈ searchTypes then
      (markFound ws found
        (((data.drop pos).take (size - pos)).takeWhile (fun b => decide (b ≠ 0)))).all id
    else false
  | c :: c2 :: sts, pos, found =>
    if c ∈ searchTypes then
      (if (markFound ws found (cstr_at data pos)).all id then true
       else schemaSearchGo ws data size (c2 :: sts)
         (pos + (cstr_at data pos).length + 1)
         (markFound ws found (cstr_at data pos)))
    else schemaSearchGo ws data size (c2 :: sts) (pos + fieldSkip data pos c) found

/-- The tagless branch of `DictBase::SearchData` (lines 383-414): while the
offset is inside the record, dispatch on the tag byte; for a searched type
the scanned text is the NUL-terminated string starting AT the tag byte
(`strstr(p, ...)` with `p` still on the tag), and the skip is its length plus
one; other tags skip per `fieldSkip`, the size field of an upper-case tag
being read at the tag position itself. Fuel bounds the iteration count; every
step advances the offset by at least one byte, so `size + 1` is enough. -/
def taglessSearchGo (ws : List (List Nat)) (data : List Nat) (size : Nat) :
    Nat → Nat → List Bool → Bool
  | 0, _, _ => false
  | fuel + 1, pos, found =>
    if pos < size then
      if data.getD pos 0 ∈ searchTypes then
        (if (markFound ws found (cstr_at data pos)).all id then true
         else taglessSearchGo ws data size fuel
           (pos + (cstr_at data pos).length + 1)
           (markFound ws found (cstr_at data pos)))
      else taglessSearchGo ws data size fuel
        (pos + fieldSkip data pos (data.getD pos 0)) found
    else false

/-- `DictBase::SearchData` (lines 315-416) on an already-read record buffer:
all needles start unfound; an empty `sametypesequence` selects the tagless
branch. -/
def SearchData (ws : List (List Nat)) (sts : List Nat) (data : List Nat)
    (size : Nat) : Bool :=
  if sts = [] then taglessSearchGo ws data size (size + 1) 0 (ws.map (fun _ => false))
  else schemaSearchGo ws data size sts 0 (ws.map (fun _ => false))

/-- The texts consulted by the schema branch, in scan order (same walk as
`schemaSearchGo`, without the found-marks). -/
def schemaTexts (data : List Nat) (size : Nat) : List Nat → Nat → List (List Nat)
  | [], _ => []
  | [c], pos =>
    if c ∈ searchTypes then
      [((data.drop pos).take (size - pos)).takeWhile (fun b => decide (b ≠ 0))]
    else []
  | c :: c2 :: sts, pos =>
    if c ∈ searchTypes then
      cstr_at data pos ::
        schemaTexts data size (c2 :: sts) (pos + (cstr_at data pos).length + 1)
    else schemaTexts data size (c2 :: sts) (pos + fieldSkip data pos c)

/-- The texts consulted by the tagless branch, in scan order (same walk as
`taglessSearchGo`; each text still starts at the tag byte). -/
def taglessTextsGo (data : List Nat) (size : Nat) : Nat → Nat → List (List Nat)
  | 0, _ => []
  | fuel + 1, pos =>
    if pos < size then
      if data.getD pos 0 ∈ searchTypes then
        cstr_at data pos ::
          taglessTextsGo data size fuel (pos + (cstr_at data pos).length + 1)
      else taglessTextsGo data size fuel (pos + fieldSkip data pos (data.getD pos 0))
    else []

/-- All texts consulted by `SearchData` for the given schema and record. -/
def searchedTexts (sts : List Nat) (data : List Nat) (size : Nat) :
    List (List Nat) :=
  if sts = [] then taglessTextsGo data size (size + 1) 0
  else schemaTexts data size sts 0

/-- Spec-side companion of `taglessTextsGo`: the CONTENT of each searched
field of a tagless record, i.e. the NUL-terminated string after the tag byte
— what the specification's "string-typed field" denotes. -/
def taglessContentsGo (data : List Nat) (size : Nat) : Nat → Nat → List (List Nat)
  | 0, _ => []
  | fuel + 1, pos =>
    if pos < size then
      if data.getD pos 0 ∈ searchTypes then
        cstr_at data (pos + 1) ::
          taglessContentsGo data size fuel (pos + (cstr_at data pos).length + 1)
      else taglessContentsGo data size fuel (pos + fieldSkip data pos (data.getD pos 0))
    else []

/-- Spec-side: the field contents of a tagless record. -/
def taglessContents (data : List Nat) (size : Nat) : List (List Nat) :=
  taglessContentsGo data size (size + 1) 0

/-- Modelled from the spec: `containSearchData` is declared in
stardict_lib.hpp, which is absent from src/. Per the spec a dictionary
"advertises data-search capability" when its records contain at least one
string-typed field per schema: an empty `sametypesequence` (fully tagged
records) always qualifies, otherwise some schema character must be a
searched string type. -/
def containSearchData (sts : List Nat) : Bool :=
  sts.isEmpty || sts.any (fun c => decide (c ∈ searchTypes))

/-- One record of a loaded dictionary: headword key and record buffer. -/
structure DictRecord where
  key : List Nat
  data : List Nat

/-- A loaded dictionary as `Libs::LookupData` sees it: its schema and its
records in index order. -/
structure DataDict where
  sametypesequence : List Nat
  entries : List DictRecord

/-- `Libs::LookupData` (lines 1478-1547): split the raw query into needles
(an empty needle list returns false at once); for every dictionary that
advertises data-search capability, keep the keys of the records `SearchData`
accepts; the overall flag says whether some per-dictionary list is
nonempty. -/
def LookupData (sWord : List Nat) (oLib : List DataDict) :
    Bool × List (List (List Nat)) :=
  if parseSearchWords sWord = [] then (false, oLib.map (fun _ => []))
  else
    ((oLib.map (fun d =>
        if containSearchData d.sametypesequence then
          (d.entries.filter (fun e =>
            SearchData (parseSearchWords sWord) d.sametypesequence e.data
              e.data.length)).map (fun e => e.key)
        else [])).any (fun l => !l.isEmpty),
     oLib.map (fun d =>
        if containSearchData d.sametypesequence then
          (d.entries.filter (fun e =>
            SearchData (parseSearchWords sWord) d.sametypesequence e.data
              e.data.length)).map (fun e => e.key)
        else []))

theorem g_ascii_tolower_ne_zero {c : Nat} (h : c ≠ 0) : g_ascii_tolower c ≠ 0 := by
  unfold g_ascii_tolower g_ascii_isupper
  split <;> simp_all

theorem g_ascii_tolower_eq_zero {c : Nat} (h : g_ascii_tolower c = 0) : c = 0 := by
  by_contra hc
  exact g_ascii_tolower_ne_zero hc h

theorem NoNul_map_tolower {l : List Nat} (h : NoNul l) :
    NoNul (l.map g_ascii_tolower) := by
  intro c hc
  rcases List.mem_map.mp hc with ⟨x, hx, rfl⟩
  exact g_ascii_tolower_ne_zero (h x hx)

theorem strcmp_cons (x y : Nat) (xs ys : List Nat) :
    strcmp (x :: xs) (y :: ys) =
      if x ≠ 0 ∧ x = y then strcmp xs ys else (x : Int) - (y : Int) := rfl

theorem strcmp_self (a : List Nat) : strcmp a a = 0 := by
  induction a with
  | nil => rfl
  | cons x xs ih =>
    rw [strcmp_cons]
    by_cases hx : x = 0
    · rw [if_neg (by simp [hx])]; simp
    · rw [if_pos ⟨hx, rfl⟩]; exact ih

theorem strcmp_neg (a b : List Nat) : strcmp a b = -(strcmp b a) := by
  induction a generalizing b with
  | nil => cases b <;> simp [strcmp]
  | cons x xs ih =>
    cases b with
    | nil => simp [strcmp]
    | cons y ys =>
      rw [strcmp_cons, strcmp_cons]
      by_cases h : x ≠ 0 ∧ x = y
      · have h' : y ≠ 0 ∧ y = x := ⟨h.2 ▸ h.1, h.2.symm⟩
        rw [if_pos h, if_pos h']
        exact ih ys
      · have h' : ¬(y ≠ 0 ∧ y = x) := by
          intro hy; exact h ⟨hy.2 ▸ hy.1, hy.2.symm⟩
        rw [if_neg h, if_neg h']
        ring

theorem strcmp_eq_zero {a b : List Nat} (ha : NoNul a) (hb : NoNul b)
    (h : strcmp a b = 0) : a = b := by
  induction a generalizing b with
  | nil =>
    cases b with
    | nil => rfl
    | cons y ys =>
      exfalso
      have hy : y ≠ 0 := hb y (List.mem_cons_self _ _)
      simp [strcmp] at h
      omega
  | cons x xs ih =>
    cases b with
    | nil =>
      exfalso
      have hx : x ≠ 0 := ha x (List.mem_cons_self _ _)
      simp [strcmp] at h
      omega
    | cons y ys =>
      rw [strcmp_cons] at h
      by_cases hxy : x ≠ 0 ∧ x = y
      · rw [if_pos hxy] at h
        have := ih (fun c hc => ha c (List.mem_cons_of_mem _ hc))
          (fun c hc => hb c (List.mem_cons_of_mem _ hc)) h
        rw [hxy.2, this]
      · exfalso
        rw [if_neg hxy] at h
        have hx : x ≠ 0 := ha x (List.mem_cons_self _ _)
        exact hxy ⟨hx, by omega⟩

theorem strcmp_trans {a b c : List Nat} (ha : NoNul a) (hb : NoNul b) (hc : NoNul c)
    (h1 : strcmp a b < 0) (h2 : strcmp b c < 0) : strcmp a c < 0 := by
  induction a generalizing b c with
  | nil =>
    cases b with
    | nil => simp [strcmp] at h1
    | cons y ys =>
      cases c with
      | nil =>
        exfalso
        have hy : y ≠ 0 := hb y (List.mem_cons_self _ _)
        simp [strcmp] at h2
        omega
      | cons z zs =>
        have hz : z ≠ 0 := hc z (List.mem_cons_self _ _)
        simp [strcmp]
        omega
  | cons x xs ih =>
    cases b with
    | nil =>
      exfalso
      have hx : x ≠ 0 := ha x (List.mem_cons_self _ _)
      simp [strcmp] at h1
      omega
    | cons y ys =>
      cases c with
      | nil =>
        exfalso
        have hy : y ≠ 0 := hb y (List.mem_cons_self _ _)
        simp [strcmp] at h2
        omega
      | cons z zs =>
        have hx : x ≠ 0 := ha x (List.mem_cons_self _ _)
        have hy : y ≠ 0 := hb y (List.mem_cons_self _ _)
        rw [strcmp_cons] at h1 h2
        rw [strcmp_cons]
        by_cases hxy : x = y
        · by_cases hyz : y = z
          · rw [if_pos ⟨hx, hxy⟩] at h1
            rw [if_pos ⟨hy, hyz⟩] at h2
            have := ih (fun d hd => ha d (List.mem_cons_of_mem _ hd))
              (fun d hd => hb d (List.mem_cons_of_mem _ hd))
              (fun d hd => hc d (List.mem_cons_of_mem _ hd)) h1 h2
            rw [if_pos ⟨hx, hxy.trans hyz⟩]
            exact this
          · rw [if_neg (fun hcon => hyz hcon.2)] at h2
            have hxz : ¬(x ≠ 0 ∧ x = z) := by
              intro hcon; omega
            rw [if_neg hxz]
            omega
        · rw [if_neg (fun hcon => hxy hcon.2)] at h1
          by_cases hyz : y = z
          · have hxz : ¬(x ≠ 0 ∧ x = z) := by intro hcon; omega
            rw [if_neg hxz]
            omega
          · rw [if_neg (fun hcon => hyz hcon.2)] at h2
            have hxz : ¬(x ≠ 0 ∧ x = z) := by intro hcon; omega
            rw [if_neg hxz]
            omega

theorem g_ascii_strcasecmp_eq_map (a b : List Nat) :
    g_ascii_strcasecmp a b = strcmp (a.map g_ascii_tolower) (b.map g_ascii_tolower) := by
  induction a generalizing b with
  | nil => cases b <;> simp [g_ascii_strcasecmp, strcmp]
  | cons x xs ih =>
    cases b with
    | nil => simp [g_ascii_strcasecmp, strcmp]
    | cons y ys =>
      by_cases h : x ≠ 0 ∧ y ≠ 0 ∧ g_ascii_tolower x = g_ascii_tolower y
      · have h' : g_ascii_tolower x ≠ 0 ∧ g_ascii_tolower x = g_ascii_tolower y :=
          ⟨g_ascii_tolower_ne_zero h.1, h.2.2⟩
        simp only [g_ascii_strcasecmp, List.map_cons, strcmp]
        rw [if_pos h, if_pos h']
        exact ih ys
      · have h' : ¬(g_ascii_tolower x ≠ 0 ∧ g_ascii_tolower x = g_ascii_tolower y) := by
          intro hcon
          exact h ⟨fun hx0 => hcon.1 (by rw [hx0]; rfl),
            fun hy0 => hcon.1 (by rw [hcon.2, hy0]; rfl), hcon.2⟩
        simp only [g_ascii_strcasecmp, List.map_cons, strcmp]
        rw [if_neg h, if_neg h']

theorem stardict_strcmp_eq (s1 s2 : List Nat) :
    stardict_strcmp s1 s2 =
      if g_ascii_strcasecmp s1 s2 = 0 then strcmp s1 s2 else g_ascii_strcasecmp s1 s2 := rfl

theorem g_ascii_strcasecmp_self (a : List Nat) : g_ascii_strcasecmp a a = 0 := by
  rw [g_ascii_strcasecmp_eq_map]; exact strcmp_self _

theorem g_ascii_strcasecmp_neg (a b : List Nat) :
    g_ascii_strcasecmp a b = -(g_ascii_strcasecmp b a) := by
  rw [g_ascii_strcasecmp_eq_map, g_ascii_strcasecmp_eq_map]; exact strcmp_neg _ _

theorem g_ascii_strcasecmp_eq_zero {a b : List Nat} (ha : NoNul a) (hb : NoNul b)
    (h : g_ascii_strcasecmp a b = 0) :
    a.map g_ascii_tolower = b.map g_ascii_tolower := by
  rw [g_ascii_strcasecmp_eq_map] at h
  exact strcmp_eq_zero (NoNul_map_tolower ha) (NoNul_map_tolower hb) h

theorem stardict_strcmp_self (a : List Nat) : stardict_strcmp a a = 0 := by
  rw [stardict_strcmp_eq, if_pos (g_ascii_strcasecmp_self a)]; exact strcmp_self a

theorem stardict_strcmp_neg (a b : List Nat) :
    stardict_strcmp a b = -(stardict_strcmp b a) := by
  rw [stardict_strcmp_eq, stardict_strcmp_eq]
  by_cases h : g_ascii_strcasecmp a b = 0
  · have h' : g_ascii_strcasecmp b a = 0 := by
      rw [g_ascii_strcasecmp_neg] at h; omega
    rw [if_pos h, if_pos h']
    exact strcmp_neg a b
  · have h' : ¬(g_ascii_strcasecmp b a = 0) := by
      intro hz; rw [g_ascii_strcasecmp_neg, hz] at h; exact h (by ring)
    rw [if_neg h, if_neg h']
    exact g_ascii_strcasecmp_neg a b

theorem stardict_strcmp_eq_zero {a b : List Nat} (ha : NoNul a) (hb : NoNul b)
    (h : stardict_strcmp a b = 0) : a = b := by
  rw [stardict_strcmp_eq] at h
  by_cases hc : g_ascii_strcasecmp a b = 0
  · rw [if_pos hc] at h
    exact strcmp_eq_zero ha hb h
  · rw [if_neg hc] at h
    exact absurd h hc

/-- Sign characterization: `stardict_strcmp a b < 0` is the lexicographic
order on the pair (case-folded bytes, raw bytes). -/
theorem stardict_strcmp_lt_iff {a b : List Nat} (ha : NoNul a) (hb : NoNul b) :
    stardict_strcmp a b < 0 ↔
      (strcmp (a.map g_ascii_tolower) (b.map g_ascii_tolower) < 0 ∨
       (a.map g_ascii_tolower = b.map g_ascii_tolower ∧ strcmp a b < 0)) := by
  rw [stardict_strcmp_eq]
  by_cases hc : g_ascii_strcasecmp a b = 0
  · have hmap := g_ascii_strcasecmp_eq_zero ha hb hc
    rw [if_pos hc]
    constructor
    · intro h; exact Or.inr ⟨hmap, h⟩
    · intro h
      rcases h with h | h
      · rw [hmap] at h; rw [strcmp_self] at h; omega
      · exact h.2
  · rw [if_neg hc]
    rw [g_ascii_strcasecmp_eq_map] at hc ⊢
    constructor
    · intro h; exact Or.inl h
    · intro h
      rcases h with h | h
      · exact h
      · rw [h.1, strcmp_self] at hc; exact absurd rfl hc

theorem stardict_strcmp_trans {a b c : List Nat} (ha : NoNul a) (hb : NoNul b)
    (hc : NoNul c) (h1 : stardict_strcmp a b < 0) (h2 : stardict_strcmp b c < 0) :
    stardict_strcmp a c < 0 := by
  rw [stardict_strcmp_lt_iff ha hb] at h1
  rw [stardict_strcmp_lt_iff hb hc] at h2
  rw [stardict_strcmp_lt_iff ha hc]
  have hma := NoNul_map_tolower ha
  have hmb := NoNul_map_tolower hb
  have hmc := NoNul_map_tolower hc
  rcases h1 with h1 | h1 <;> rcases h2 with h2 | h2
  · exact Or.inl (strcmp_trans hma hmb hmc h1 h2)
  · exact Or.inl (h2.1 ▸ h1)
  · exact Or.inl (h1.1 ▸ h2)
  · exact Or.inr ⟨h1.1.trans h2.1, strcmp_trans ha hb hc h1.2 h2.2⟩

theorem stardict_strcmp_lt_of_le_of_lt {a b c : List Nat} (ha : NoNul a) (hb : NoNul b)
    (hc : NoNul c) (h1 : stardict_strcmp a b ≤ 0) (h2 : stardict_strcmp b c < 0) :
    stardict_strcmp a c < 0 := by
  rcases lt_or_eq_of_le h1 with h | h
  · exact stardict_strcmp_trans ha hb hc h h2
  · rw [stardict_strcmp_eq_zero ha hb h]; exact h2

theorem stardict_strcmp_lt_of_lt_of_le {a b c : List Nat} (ha : NoNul a) (hb : NoNul b)
    (hc : NoNul c) (h1 : stardict_strcmp a b < 0) (h2 : stardict_strcmp b c ≤ 0) :
    stardict_strcmp a c < 0 := by
  rcases lt_or_eq_of_le h2 with h | h
  · exact stardict_strcmp_trans ha hb hc h1 h
  · rw [← stardict_strcmp_eq_zero hb hc h]; exact h1

theorem stardict_strcmp_le_trans {a b c : List Nat} (ha : NoNul a) (hb : NoNul b)
    (hc : NoNul c) (h1 : stardict_strcmp a b ≤ 0) (h2 : stardict_strcmp b c ≤ 0) :
    stardict_strcmp a c ≤ 0 := by
  rcases lt_or_eq_of_le h2 with h | h
  · exact le_of_lt (stardict_strcmp_lt_of_le_of_lt ha hb hc h1 h)
  · rw [← stardict_strcmp_eq_zero hb hc h]; exact h1

theorem stardict_strcmp_pos_flip (a b : List Nat) :
    0 < stardict_strcmp a b ↔ stardict_strcmp b a < 0 := by
  rw [stardict_strcmp_neg a b]; omega

theorem get_key_NoNul {ks : List (List Nat)} (hnz : NoNulIdx ks) (i : Int) :
    NoNul (get_key ks i) := by
  unfold get_key
  by_cases h : i.toNat < ks.length
  · rw [List.getD_eq_getElem _ _ h]
    exact hnz _ (List.getElem_mem h)
  · rw [List.getD_eq_default _ _ (by omega)]
    intro c hc
    exact absurd hc (List.not_mem_nil c)

theorem sorted_key_le {ks : List (List Nat)} (hs : SortedIdx ks) {i j : Int}
    (h0 : 0 ≤ i) (hij : i ≤ j) (hj : j < (ks.length : Int)) :
    stardict_strcmp (get_key ks i) (get_key ks j) ≤ 0 := by
  rcases eq_or_lt_of_le hij with h | h
  · rw [h]
    rw [stardict_strcmp_self]
  · have hi' : i.toNat < ks.length := by omega
    have hj' : j.toNat < ks.length := by omega
    have hij' : i.toNat < j.toNat := by omega
    unfold get_key
    rw [List.getD_eq_getElem _ _ hi', List.getD_eq_getElem _ _ hj']
    exact (List.pairwise_iff_getElem.mp hs) i.toNat j.toNat hi' hj' hij'

/-- Master specification of the shared binary-search loop: on a hit the probe
index carries a key equal to the query; on a miss the final `iFrom` is one
past the final `iTo` and brackets the insertion point (everything to the left
is strictly below the query, everything to the right strictly above). -/
theorem bsGo_spec (k : Int → List Nat) (s : List Nat) (lo0 hi0 : Int)
    (hsort : ∀ i j, lo0 ≤ i → i ≤ j → j ≤ hi0 → stardict_strcmp (k i) (k j) ≤ 0)
    (hnzk : ∀ i, NoNul (k i)) (hnzs : NoNul s) :
    ∀ fuel iFrom iTo, (iTo + 1 - iFrom).toNat < fuel →
      lo0 ≤ iFrom → iTo ≤ hi0 → iFrom ≤ iTo + 1 →
      (∀ i, lo0 ≤ i → i < iFrom → 0 < stardict_strcmp s (k i)) →
      (∀ i, iTo < i → i ≤ hi0 → stardict_strcmp s (k i) < 0) →
      ((bsGo k s fuel iFrom iTo).found = true →
        iFrom ≤ (bsGo k s fuel iFrom iTo).idx ∧ (bsGo k s fuel iFrom iTo).idx ≤ iTo ∧
        stardict_strcmp s (k (bsGo k s fuel iFrom iTo).idx) = 0) ∧
      ((bsGo k s fuel iFrom iTo).found = false →
        (bsGo k s fuel iFrom iTo).lo = (bsGo k s fuel iFrom iTo).hi + 1 ∧
        iFrom ≤ (bsGo k s fuel iFrom iTo).lo ∧ (bsGo k s fuel iFrom iTo).hi ≤ iTo ∧
        (∀ i, lo0 ≤ i → i < (bsGo k s fuel iFrom iTo).lo → 0 < stardict_strcmp s (k i)) ∧
        (∀ i, (bsGo k s fuel iFrom iTo).hi < i → i ≤ hi0 →
          stardict_strcmp s (k i) < 0)) := by
  intro fuel
  induction fuel with
  | zero =>
    intro iFrom iTo hfuel
    omega
  | succ n ih =>
    intro iFrom iTo hfuel hlo hhi hor hleft hright
    by_cases hcase : iFrom ≤ iTo
    · have hunf : bsGo k s (n + 1) iFrom iTo =
        (let iThisIndex := (iFrom + iTo) / 2
         let cmpint := stardict_strcmp s (k iThisIndex)
         if 0 < cmpint then bsGo k s n (iThisIndex + 1) iTo
         else if cmpint < 0 then bsGo k s n iFrom (iThisIndex - 1)
         else ⟨true, iThisIndex, iFrom, iTo⟩) := by
        show (if iFrom ≤ iTo then _ else _) = _
        rw [if_pos hcase]
      set m : Int := (iFrom + iTo) / 2 with hm
      have hmrange : iFrom ≤ m ∧ m ≤ iTo := by omega
      by_cases hgt : 0 < stardict_strcmp s (k m)
      · -- query above the probe: everything at or below the probe is below the query
        have hleft' : ∀ i, lo0 ≤ i → i < m + 1 → 0 < stardict_strcmp s (k i) := by
          intro i hi0 him
          by_cases hiF : i < iFrom
          · exact hleft i hi0 hiF
          · have hkm : stardict_strcmp (k i) (k m) ≤ 0 :=
              hsort i m hi0 (by omega) (by omega)
            rw [stardict_strcmp_pos_flip] at hgt ⊢
            exact stardict_strcmp_lt_of_le_of_lt (hnzk i) (hnzk m) hnzs hkm hgt
        have := ih (m + 1) iTo (by omega) (by omega) hhi (by omega) hleft' hright
        rw [hunf]
        simp only []
        rw [if_pos hgt]
        constructor
        · intro hf
          rcases this.1 hf with ⟨h1, h2, h3⟩
          exact ⟨by omega, h2, h3⟩
        · intro hf
          rcases this.2 hf with ⟨h1, h2, h3, h4, h5⟩
          exact ⟨h1, by omega, h3, h4, h5⟩
      · by_cases hlt : stardict_strcmp s (k m) < 0
        · -- query below the probe: everything at or above the probe is above
          have hright' : ∀ i, m - 1 < i → i ≤ hi0 → stardict_strcmp s (k i) < 0 := by
            intro i him hi0
            by_cases hiT : iTo < i
            · exact hright i hiT hi0
            · have hkm : stardict_strcmp (k m) (k i) ≤ 0 :=
                hsort m i (by omega) (by omega) (by omega)
              exact stardict_strcmp_lt_of_lt_of_le hnzs (hnzk m) (hnzk i) hlt hkm
          have := ih iFrom (m - 1) (by omega) hlo (by omega) (by omega) hleft hright'
          rw [hunf]
          simp only []
          rw [if_neg (by omega), if_pos hlt]
          constructor
          · intro hf
            rcases this.1 hf with ⟨h1, h2, h3⟩
            exact ⟨h1, by omega, h3⟩
          · intro hf
            rcases this.2 hf with ⟨h1, h2, h3, h4, h5⟩
            exact ⟨h1, h2, by omega, h4, h5⟩
        · -- hit at the probe
          rw [hunf]
          simp only []
          rw [if_neg (by omega), if_neg (by omega)]
          have hz : stardict_strcmp s (k m) = 0 := by omega
          constructor
          · intro _
            exact ⟨hmrange.1, hmrange.2, hz⟩
          · intro hf
            exact absurd hf (by simp)
    · have hunf : bsGo k s (n + 1) iFrom iTo = ⟨false, 0, iFrom, iTo⟩ := by
        show (if iFrom ≤ iTo then _ else _) = _
        rw [if_neg hcase]
      rw [hunf]
      constructor
      · intro hf
        exact absurd hf (by simp)
      · intro _
        refine ⟨?_, ?_, ?_, ?_, ?_⟩
        · show iFrom = iTo + 1
          omega
        · show iFrom ≤ iFrom
          omega
        · show iTo ≤ iTo
          omega
        · intro i hi0 hif
          exact hleft i hi0 hif
        · intro i hit hih
          exact hright i hit hih

/-- The backward duplicate walk collects exactly the equal run below its
starting point. -/
theorem walkDownGo_eq (k : Int → List Nat) (s : List Nat) (lo : Int)
    (hlo : 0 ≤ lo)
    (hstop : ¬(0 ≤ lo - 1 ∧ stardict_strcmp s (k (lo - 1)) = 0)) :
    ∀ fuel i, lo - 1 ≤ i →
      (∀ j, lo ≤ j → j ≤ i → stardict_strcmp s (k j) = 0) →
      (i + 1 - lo).toNat < fuel →
      walkDownGo k s fuel i = Finset.Icc lo i := by
  intro fuel
  induction fuel with
  | zero =>
    intro i hi hj hfuel
    omega
  | succ n ih =>
    intro i hi heq hfuel
    by_cases hcase : lo ≤ i
    · have hcond : 0 ≤ i ∧ stardict_strcmp s (k i) = 0 :=
        ⟨by omega, heq i hcase le_rfl⟩
      show (if _ then _ else _) = _
      rw [if_pos hcond]
      rw [ih (i - 1) (by omega) (fun j hj1 hj2 => heq j hj1 (by omega)) (by omega)]
      ext x
      simp only [Finset.mem_insert, Finset.mem_Icc]
      omega
    · have hieq : i = lo - 1 := by omega
      show (if _ then _ else _) = _
      rw [hieq, if_neg hstop]
      rw [eq_comm]
      exact Finset.Icc_eq_empty (by omega)

/-- The forward duplicate walk collects exactly the equal run from its
starting point up. -/
theorem walkUpGo_eq (k : Int → List Nat) (s : List Nat) (iLast hi : Int)
    (hhi : hi ≤ iLast)
    (hstop : ¬(hi + 1 ≤ iLast ∧ stardict_strcmp s (k (hi + 1)) = 0)) :
    ∀ fuel i, i ≤ hi →
      (∀ j, i ≤ j → j ≤ hi → stardict_strcmp s (k j) = 0) →
      (hi - i).toNat < fuel →
      walkUpGo k s iLast fuel i = Finset.Icc i hi := by
  intro fuel
  induction fuel with
  | zero =>
    intro i hi1 hj hfuel
    omega
  | succ n ih =>
    intro i hile heq hfuel
    by_cases hcase : i = hi
    · show insert i (if _ then _ else _) = _
      rw [hcase, if_neg hstop]
      rw [Finset.Icc_self]
      simp
    · have hcond : i + 1 ≤ iLast ∧ stardict_strcmp s (k (i + 1)) = 0 :=
        ⟨by omega, heq (i + 1) (by omega) (by omega)⟩
      show insert i (if _ then _ else _) = _
      rw [if_pos hcond]
      rw [ih (i + 1) (by omega) (fun j hj1 hj2 => heq j (by omega) hj2) (by omega)]
      ext x
      simp only [Finset.mem_insert, Finset.mem_Icc]
      omega

theorem walkUp_mem_self (k : Int → List Nat) (s : List Nat) (iLast i : Int) :
    i ∈ walkUp k s iLast i := by
  unfold walkUp
  show i ∈ insert i _
  exact Finset.mem_insert_self _ _

theorem WordListIndex_lookup_def (ks : List (List Nat)) (s : List Nat) :
    WordListIndex_lookup ks s =
      (if stardict_strcmp s (get_key ks 0) < 0 then ⟨false, ∅, some 0⟩
       else if 0 < stardict_strcmp s (get_key ks ((ks.length : Int) - 1)) then
         ⟨false, ∅, some INVALID_INDEX⟩
       else
         if (bsearch (get_key ks) s 0 ((ks.length : Int) - 1)).found then
           ⟨true,
            walkDown (get_key ks) s ((bsearch (get_key ks) s 0 ((ks.length : Int) - 1)).idx - 1) ∪
              walkUp (get_key ks) s ((ks.length : Int) - 1)
                (bsearch (get_key ks) s 0 ((ks.length : Int) - 1)).idx,
            none⟩
         else ⟨false, ∅, some (bsearch (get_key ks) s 0 ((ks.length : Int) - 1)).lo⟩) := rfl

/-- Specification of `bsearch` over a whole sorted index range `[0, n-1]`:
either a hit at an equal key, or a miss whose final `iFrom` is the insertion
point. -/
theorem bsearch_spec (ks : List (List Nat)) (s : List Nat) (lo0 hi0 : Int)
    (hs : SortedIdx ks) (hz : NoNulIdx ks) (hw : NoNul s)
    (k : Int → List Nat) (f : Int → Int)
    (hk : ∀ i, k i = get_key ks (f i))
    (hmono : ∀ i j, lo0 ≤ i → i ≤ j → j ≤ hi0 → 0 ≤ f i ∧ f i ≤ f j ∧ f j < (ks.length : Int))
    (hne : lo0 ≤ hi0 + 1) :
    ((bsearch k s lo0 hi0).found = true →
      lo0 ≤ (bsearch k s lo0 hi0).idx ∧ (bsearch k s lo0 hi0).idx ≤ hi0 ∧
      stardict_strcmp s (k (bsearch k s lo0 hi0).idx) = 0) ∧
    ((bsearch k s lo0 hi0).found = false →
      (bsearch k s lo0 hi0).lo = (bsearch k s lo0 hi0).hi + 1 ∧
      lo0 ≤ (bsearch k s lo0 hi0).lo ∧ (bsearch k s lo0 hi0).hi ≤ hi0 ∧
      (∀ i, lo0 ≤ i → i < (bsearch k s lo0 hi0).lo → 0 < stardict_strcmp s (k i)) ∧
      (∀ i, (bsearch k s lo0 hi0).hi < i → i ≤ hi0 → stardict_strcmp s (k i) < 0)) := by
  refine bsGo_spec k s lo0 hi0 ?_ ?_ hw _ lo0 hi0 (by omega) le_rfl le_rfl hne
    (fun i h1 h2 => absurd h2 (by omega)) (fun i h1 h2 => absurd h1 (by omega))
  · intro i j h1 h2 h3
    rcases hmono i j h1 h2 h3 with ⟨hf0, hff, hfn⟩
    rw [hk i, hk j]
    exact sorted_key_le hs hf0 hff hfn
  · intro i
    rw [hk i]
    exact get_key_NoNul hz _

theorem get_key_natCast (ks : List (List Nat)) (m : Nat) (hm : m < ks.length) :
    get_key ks (m : Int) = ks[m] := by
  unfold get_key
  rw [Int.toNat_natCast, List.getD_eq_getElem _ _ hm]

theorem WordList_present {ks : List (List Nat)} {w : List Nat}
    (hs : SortedIdx ks) (hz : NoNulIdx ks) (hw : NoNul w) (hmem : w ∈ ks) :
    (WordListIndex_lookup ks w).found = true ∧
    ∃ i, i ∈ (WordListIndex_lookup ks w).idxs ∧ get_key ks i = w := by
  obtain ⟨mn, hmn, hget⟩ := List.mem_iff_getElem.mp hmem
  have hm0 : get_key ks (mn : Int) = w := by rw [get_key_natCast ks mn hmn]; exact hget
  have hcm : stardict_strcmp w (get_key ks (mn : Int)) = 0 := by
    rw [hm0]; exact stardict_strcmp_self w
  have hmnn : (mn : Int) < (ks.length : Int) := by exact_mod_cast hmn
  have hb1 : ¬(stardict_strcmp w (get_key ks 0) < 0) := by
    have h := sorted_key_le hs (le_refl (0 : Int)) (by omega : (0:Int) ≤ (mn : Int)) hmnn
    rw [hm0] at h
    rw [stardict_strcmp_neg] at h
    omega
  have hb2 : ¬(0 < stardict_strcmp w (get_key ks ((ks.length : Int) - 1))) := by
    have h := sorted_key_le hs (by omega : (0:Int) ≤ (mn : Int))
      (by omega : (mn : Int) ≤ (ks.length : Int) - 1) (by omega)
    rw [hm0] at h
    omega
  have spec := bsearch_spec ks w 0 ((ks.length : Int) - 1) hs hz hw (get_key ks) id
    (fun i => rfl)
    (fun i j h1 h2 h3 => ⟨h1, h2, by show j < (ks.length : Int); omega⟩) (by omega)
  set r := bsearch (get_key ks) w 0 ((ks.length : Int) - 1) with hr
  have hfound : r.found = true := by
    by_contra hnf
    have hnf' : r.found = false := by
      cases h : r.found
      · rfl
      · exact absurd h hnf
    rcases spec.2 hnf' with ⟨he, hlo, hhi, hleft, hright⟩
    by_cases hside : (mn : Int) < r.lo
    · have := hleft (mn : Int) (by omega) hside
      omega
    · have := hright (mn : Int) (by omega) (by omega)
      omega
  rw [WordListIndex_lookup_def, if_neg hb1, if_neg hb2, ← hr, if_pos hfound]
  refine ⟨rfl, r.idx, ?_, ?_⟩
  · exact Finset.mem_union_right _ (walkUp_mem_self _ _ _ _)
  · rcases spec.1 hfound with ⟨h1, h2, h3⟩
    exact (stardict_strcmp_eq_zero hw (get_key_NoNul hz _) h3).symm

theorem WordList_between {ks : List (List Nat)} {w : List Nat} {t : Int}
    (hs : SortedIdx ks) (hz : NoNulIdx ks) (hw : NoNul w)
    (ht0 : 0 ≤ t) (ht1 : t + 1 ≤ (ks.length : Int) - 1)
    (hlt : stardict_strcmp (get_key ks t) w < 0)
    (hgt : stardict_strcmp w (get_key ks (t + 1)) < 0) :
    WordListIndex_lookup ks w = ⟨false, ∅, some (t + 1)⟩ := by
  have hwt : 0 < stardict_strcmp w (get_key ks t) := by
    rw [stardict_strcmp_pos_flip]; exact hlt
  -- no key equals the query
  have hnoeq : ∀ i : Int, 0 ≤ i → i ≤ (ks.length : Int) - 1 →
      stardict_strcmp w (get_key ks i) ≠ 0 := by
    intro i h0 hn
    by_cases hit : i ≤ t
    · have h := sorted_key_le hs h0 hit (by omega)
      have : 0 < stardict_strcmp w (get_key ks i) := by
        rw [stardict_strcmp_pos_flip] at hwt ⊢
        exact stardict_strcmp_lt_of_le_of_lt (get_key_NoNul hz _) (get_key_NoNul hz _)
          hw h hwt
      omega
    · have h := sorted_key_le hs (by omega : (0:Int) ≤ t + 1) (by omega : t + 1 ≤ i)
        (by omega)
      have : stardict_strcmp w (get_key ks i) < 0 :=
        stardict_strcmp_lt_of_lt_of_le hw (get_key_NoNul hz _) (get_key_NoNul hz _)
          hgt h
      omega
  have hb1 : ¬(stardict_strcmp w (get_key ks 0) < 0) := by
    have h := sorted_key_le hs (le_refl (0 : Int)) ht0 (by omega)
    have h2 : stardict_strcmp (get_key ks 0) w < 0 :=
      stardict_strcmp_lt_of_le_of_lt (get_key_NoNul hz _) (get_key_NoNul hz _) hw h hlt
    rw [stardict_strcmp_neg]
    omega
  have hb2 : ¬(0 < stardict_strcmp w (get_key ks ((ks.length : Int) - 1))) := by
    have h := sorted_key_le hs (by omega : (0:Int) ≤ t + 1) ht1 (by omega)
    have : stardict_strcmp w (get_key ks ((ks.length : Int) - 1)) < 0 :=
      stardict_strcmp_lt_of_lt_of_le hw (get_key_NoNul hz _) (get_key_NoNul hz _) hgt h
    omega
  have spec := bsearch_spec ks w 0 ((ks.length : Int) - 1) hs hz hw (get_key ks) id
    (fun i => rfl)
    (fun i j h1 h2 h3 => ⟨h1, h2, by show j < (ks.length : Int); omega⟩) (by omega)
  set r := bsearch (get_key ks) w 0 ((ks.length : Int) - 1) with hr
  have hnf : r.found = false := by
    cases h : r.found
    · rfl
    · rcases spec.1 h with ⟨h1, h2, h3⟩
      exact absurd h3 (hnoeq _ h1 h2)
  rcases spec.2 hnf with ⟨he, hlo, hhi, hleft, hright⟩
  have hlo1 : t < r.lo := by
    by_contra hcon
    have := hright t (by omega) (by omega)
    omega
  have hlo2 : r.lo ≤ t + 1 := by
    by_contra hcon
    have := hleft (t + 1) (by omega) (by omega)
    omega
  rw [WordListIndex_lookup_def, if_neg hb1, if_neg hb2, ← hr]
  rw [if_neg (by rw [hnf]; exact Bool.false_ne_true)]
  have : r.lo = t + 1 := by omega
  rw [this]

theorem WordList_before_first {ks : List (List Nat)} {w : List Nat}
    (h : stardict_strcmp w (get_key ks 0) < 0) :
    WordListIndex_lookup ks w = ⟨false, ∅, some 0⟩ := by
  rw [WordListIndex_lookup_def, if_pos h]

theorem WordList_after_last {ks : List (List Nat)} {w : List Nat}
    (hs : SortedIdx ks) (hz : NoNulIdx ks) (hw : NoNul w) (hne : ks ≠ [])
    (h : 0 < stardict_strcmp w (get_key ks ((ks.length : Int) - 1))) :
    WordListIndex_lookup ks w = ⟨false, ∅, some INVALID_INDEX⟩ := by
  have hn : 1 ≤ ks.length := List.length_pos.mpr hne
  have hb1 : ¬(stardict_strcmp w (get_key ks 0) < 0) := by
    have hk := sorted_key_le hs (le_refl (0 : Int))
      (by omega : (0:Int) ≤ (ks.length : Int) - 1) (by omega)
    rw [stardict_strcmp_pos_flip] at h
    have h2 : stardict_strcmp (get_key ks 0) w < 0 :=
      stardict_strcmp_lt_of_le_of_lt (get_key_NoNul hz _) (get_key_NoNul hz _) hw hk h
    rw [stardict_strcmp_neg]
    omega
  rw [WordListIndex_lookup_def, if_neg hb1, if_pos h]

/-- When the indices equal to the query form exactly the block `[lo, hi]`,
the two duplicate walks starting from any hit inside the block collect
exactly that block. -/
theorem walks_block {ks : List (List Nat)} {w : List Nat} {lo hi iThis : Int}
    (hlo : 0 ≤ lo) (hhi : hi ≤ (ks.length : Int) - 1)
    (hiff : ∀ i : Int, 0 ≤ i → i ≤ (ks.length : Int) - 1 →
      (stardict_strcmp w (get_key ks i) = 0 ↔ lo ≤ i ∧ i ≤ hi))
    (hT0 : lo ≤ iThis) (hT1 : iThis ≤ hi) :
    walkDown (get_key ks) w (iThis - 1) ∪
      walkUp (get_key ks) w ((ks.length : Int) - 1) iThis = Finset.Icc lo hi := by
  have hdown : walkDown (get_key ks) w (iThis - 1) = Finset.Icc lo (iThis - 1) := by
    unfold walkDown
    refine walkDownGo_eq (get_key ks) w lo hlo ?_ _ (iThis - 1) (by omega) ?_ (by omega)
    · intro hcon
      have := (hiff (lo - 1) (by omega) (by omega)).mp hcon.2
      omega
    · intro j hj1 hj2
      exact (hiff j (by omega) (by omega)).mpr ⟨hj1, by omega⟩
  have hup : walkUp (get_key ks) w ((ks.length : Int) - 1) iThis = Finset.Icc iThis hi := by
    unfold walkUp
    refine walkUpGo_eq (get_key ks) w ((ks.length : Int) - 1) hi hhi ?_ _ iThis hT1 ?_
      (by omega)
    · intro hcon
      have := (hiff (hi + 1) (by omega) (by omega)).mp hcon.2
      omega
    · intro j hj1 hj2
      exact (hiff j (by omega) (by omega)).mpr ⟨by omega, hj2⟩
  rw [hdown, hup]
  ext x
  simp only [Finset.mem_union, Finset.mem_Icc]
  omega

theorem WordList_block {ks : List (List Nat)} {w : List Nat} {lo hi : Int}
    (hs : SortedIdx ks) (hz : NoNulIdx ks) (hw : NoNul w)
    (hlo : 0 ≤ lo) (hlh : lo ≤ hi) (hhi : hi ≤ (ks.length : Int) - 1)
    (hiff : ∀ i : Int, 0 ≤ i → i ≤ (ks.length : Int) - 1 →
      (stardict_strcmp w (get_key ks i) = 0 ↔ lo ≤ i ∧ i ≤ hi)) :
    WordListIndex_lookup ks w = ⟨true, Finset.Icc lo hi, none⟩ := by
  have hceq : stardict_strcmp w (get_key ks lo) = 0 :=
    (hiff lo hlo (by omega)).mpr ⟨le_rfl, hlh⟩
  have hwlo : get_key ks lo = w :=
    (stardict_strcmp_eq_zero hw (get_key_NoNul hz _) hceq).symm
  have hb1 : ¬(stardict_strcmp w (get_key ks 0) < 0) := by
    have h := sorted_key_le hs (le_refl (0 : Int)) hlo (by omega)
    rw [hwlo] at h
    rw [stardict_strcmp_neg] at h
    omega
  have hb2 : ¬(0 < stardict_strcmp w (get_key ks ((ks.length : Int) - 1))) := by
    have h := sorted_key_le hs hlo (by omega : lo ≤ (ks.length : Int) - 1) (by omega)
    rw [hwlo] at h
    omega
  have spec := bsearch_spec ks w 0 ((ks.length : Int) - 1) hs hz hw (get_key ks)
    (fun i => i) (fun i => rfl)
    (fun i j h1 h2 h3 => ⟨h1, h2, by show j < (ks.length : Int); omega⟩) (by omega)
  set r := bsearch (get_key ks) w 0 ((ks.length : Int) - 1) with hr
  have hfound : r.found = true := by
    by_contra hnf
    have hnf' : r.found = false := by
      cases h : r.found
      · rfl
      · exact absurd h hnf
    rcases spec.2 hnf' with ⟨he, hlo', hhi', hleft, hright⟩
    by_cases hside : lo < r.lo
    · have := hleft lo hlo hside
      omega
    · have := hright lo (by omega) (by omega)
      omega
  rcases spec.1 hfound with ⟨h1, h2, h3⟩
  have hblk := (hiff r.idx h1 h2).mp h3
  rw [WordListIndex_lookup_def, if_neg hb1, if_neg hb2, ← hr, if_pos hfound]
  rw [walks_block hlo hhi hiff hblk.1 hblk.2]

theorem OffsetIndex_lookup_def (ks : List (List Nat)) (s : List Nat) :
    OffsetIndex_lookup ks s =
      (if stardict_strcmp s (get_key ks 0) < 0 then ⟨false, ∅, some 0⟩
       else if 0 < stardict_strcmp s (get_key ks ((ks.length : Int) - 1)) then
         ⟨false, ∅, some INVALID_INDEX⟩
       else
         if (bsearch (fun p => get_key ks (32 * p)) s 0 (((ks.length : Int) - 1) / 32)).found then
           ⟨true,
            walkDown (get_key ks) s
              (32 * (bsearch (fun p => get_key ks (32 * p)) s 0
                (((ks.length : Int) - 1) / 32)).idx - 1) ∪
              walkUp (get_key ks) s ((ks.length : Int) - 1)
                (32 * (bsearch (fun p => get_key ks (32 * p)) s 0
                  (((ks.length : Int) - 1) / 32)).idx), none⟩
         else
           if (bsearch
                (fun j => get_key ks
                  (32 * (bsearch (fun p => get_key ks (32 * p)) s 0
                    (((ks.length : Int) - 1) / 32)).hi + j)) s 0
                ((if (bsearch (fun p => get_key ks (32 * p)) s 0
                    (((ks.length : Int) - 1) / 32)).hi = ((ks.length : Int) - 1) / 32 then
                    (if (ks.length : Int) % 32 = 0 then 32 else (ks.length : Int) % 32)
                  else 32) - 1)).found then
             ⟨true,
              walkDown (get_key ks) s
                (32 * (bsearch (fun p => get_key ks (32 * p)) s 0
                  (((ks.length : Int) - 1) / 32)).hi +
                 (bsearch
                  (fun j => get_key ks
                    (32 * (bsearch (fun p => get_key ks (32 * p)) s 0
                      (((ks.length : Int) - 1) / 32)).hi + j)) s 0
                  ((if (bsearch (fun p => get_key ks (32 * p)) s 0
                      (((ks.length : Int) - 1) / 32)).hi = ((ks.length : Int) - 1) / 32 then
                      (if (ks.length : Int) % 32 = 0 then 32 else (ks.length : Int) % 32)
                    else 32) - 1)).idx - 1) ∪
                walkUp (get_key ks) s ((ks.length : Int) - 1)
                  (32 * (bsearch (fun p => get_key ks (32 * p)) s 0
                    (((ks.length : Int) - 1) / 32)).hi +
                   (bsearch
                    (fun j => get_key ks
                      (32 * (bsearch (fun p => get_key ks (32 * p)) s 0
                        (((ks.length : Int) - 1) / 32)).hi + j)) s 0
                    ((if (bsearch (fun p => get_key ks (32 * p)) s 0
                        (((ks.length : Int) - 1) / 32)).hi = ((ks.length : Int) - 1) / 32 then
                        (if (ks.length : Int) % 32 = 0 then 32 else (ks.length : Int) % 32)
                      else 32) - 1)).idx),
              none⟩
           else
             ⟨false, ∅, some
               (32 * (bsearch (fun p => get_key ks (32 * p)) s 0
                 (((ks.length : Int) - 1) / 32)).hi +
                (bsearch
                 (fun j => get_key ks
                   (32 * (bsearch (fun p => get_key ks (32 * p)) s 0
                     (((ks.length : Int) - 1) / 32)).hi + j)) s 0
                 ((if (bsearch (fun p => get_key ks (32 * p)) s 0
                     (((ks.length : Int) - 1) / 32)).hi = ((ks.length : Int) - 1) / 32 then
                     (if (ks.length : Int) % 32 = 0 then 32 else (ks.length : Int) % 32)
                   else 32) - 1)).lo)⟩) := rfl

/-- A query equal to some key passes both bracket checks of a lookup. -/
theorem bracket_facts {ks : List (List Nat)} {w : List Nat}
    (hs : SortedIdx ks) {m : Int}
    (hm0 : 0 ≤ m) (hmn : m < (ks.length : Int)) (heq : get_key ks m = w) :
    ¬(stardict_strcmp w (get_key ks 0) < 0) ∧
    ¬(0 < stardict_strcmp w (get_key ks ((ks.length : Int) - 1))) := by
  constructor
  · have h := sorted_key_le hs (le_refl (0 : Int)) hm0 hmn
    rw [heq] at h
    rw [stardict_strcmp_neg] at h
    omega
  · have h := sorted_key_le hs hm0 (by omega : m ≤ (ks.length : Int) - 1) (by omega)
    rw [heq] at h
    omega

/-- Core of the `OffsetIndex::lookup` hit path: when the query equals the key
at index `m`, the two-stage search finds some equal global index `iThis` and
the result is the duplicate walk around it. -/
theorem Offset_found_core {ks : List (List Nat)} {w : List Nat}
    (hs : SortedIdx ks) (hz : NoNulIdx ks) (hw : NoNul w) {m : Int}
    (hmge : 0 ≤ m) (hmnn : m < (ks.length : Int)) (hm0 : get_key ks m = w) :
    ∃ iThis : Int, 0 ≤ iThis ∧ iThis ≤ (ks.length : Int) - 1 ∧
      stardict_strcmp w (get_key ks iThis) = 0 ∧
      OffsetIndex_lookup ks w =
        ⟨true, walkDown (get_key ks) w (iThis - 1) ∪
          walkUp (get_key ks) w ((ks.length : Int) - 1) iThis, none⟩ := by
  have hcm : stardict_strcmp w (get_key ks m) = 0 := by
    rw [hm0]; exact stardict_strcmp_self w
  obtain ⟨hb1, hb2⟩ := bracket_facts hs hmge hmnn hm0
  have hn1 : (1 : Int) ≤ (ks.length : Int) := by omega
  have spec := bsearch_spec ks w 0 (((ks.length : Int) - 1) / 32) hs hz hw
    (fun p => get_key ks (32 * p)) (fun p => 32 * p) (fun p => rfl)
    (fun i j h1 h2 h3 =>
      ⟨by show (0:Int) ≤ 32 * i; omega, by show (32:Int) * i ≤ 32 * j; omega,
       by show 32 * j < (ks.length : Int); omega⟩) (by omega)
  set outer := bsearch (fun p => get_key ks (32 * p)) w 0 (((ks.length : Int) - 1) / 32)
    with houter
  by_cases hof : outer.found = true
  · rcases spec.1 hof with ⟨hp1, hp2, hp3⟩
    have hp3' : stardict_strcmp w (get_key ks (32 * outer.idx)) = 0 := hp3
    refine ⟨32 * outer.idx, by omega, by omega, hp3', ?_⟩
    rw [OffsetIndex_lookup_def, if_neg hb1, if_neg hb2, ← houter, if_pos hof]
  · have hof' : outer.found = false := by
      cases h : outer.found
      · rfl
      · exact absurd h hof
    rcases spec.2 hof' with ⟨he, hlo', hhi', hleft, hright⟩
    have hOH0 : 0 ≤ outer.hi := by
      by_contra hcon
      have h0 := hright 0 (by omega) (by omega)
      have h0' : stardict_strcmp w (get_key ks (32 * 0)) < 0 := h0
      rw [show (32 : Int) * 0 = 0 by ring] at h0'
      exact hb1 h0'
    have hm_lb : 32 * outer.hi < m := by
      by_contra hcon
      push_neg at hcon
      have hkk := sorted_key_le hs (by omega : (0:Int) ≤ m) hcon (by omega)
      rw [hm0] at hkk
      have hl := hleft outer.hi hOH0 (by omega)
      have hl' : 0 < stardict_strcmp w (get_key ks (32 * outer.hi)) := hl
      omega
    set netr : Int :=
      (if outer.hi = ((ks.length : Int) - 1) / 32 then
        (if (ks.length : Int) % 32 = 0 then 32 else (ks.length : Int) % 32)
      else 32) with hnetr
    have hnetr1 : 1 ≤ netr ∧ netr ≤ 32 := by
      rw [hnetr]; split_ifs <;> omega
    have hfit : 32 * outer.hi + netr ≤ (ks.length : Int) := by
      rw [hnetr]; split_ifs with h1 h2 <;> omega
    have hm_ub : m < 32 * outer.hi + netr := by
      by_cases hP : outer.hi = ((ks.length : Int) - 1) / 32
      · rw [hnetr, if_pos hP]
        split_ifs with h2 <;> omega
      · have hp1 : outer.hi + 1 ≤ ((ks.length : Int) - 1) / 32 := by omega
        have hr := hright (outer.hi + 1) (by omega) hp1
        have hr' : stardict_strcmp w (get_key ks (32 * (outer.hi + 1))) < 0 := hr
        by_contra hcon
        push_neg at hcon
        have hne32 : netr = 32 := by rw [hnetr, if_neg hP]
        have hge : 32 * (outer.hi + 1) ≤ m := by omega
        have hkk := sorted_key_le hs (by omega : (0:Int) ≤ 32 * (outer.hi + 1)) hge
          (by omega)
        rw [hm0] at hkk
        rw [stardict_strcmp_neg] at hr'
        omega
    have ispec := bsearch_spec ks w 0 (netr - 1) hs hz hw
      (fun j => get_key ks (32 * outer.hi + j)) (fun j => 32 * outer.hi + j)
      (fun j => rfl)
      (fun i j h1 h2 h3 =>
        ⟨by show (0:Int) ≤ 32 * outer.hi + i; omega,
         by show (32:Int) * outer.hi + i ≤ 32 * outer.hi + j; omega,
         by show 32 * outer.hi + j < (ks.length : Int); omega⟩) (by omega)
    set inner := bsearch (fun j => get_key ks (32 * outer.hi + j)) w 0 (netr - 1)
      with hinner
    have hif : inner.found = true := by
      by_contra hnf
      have hnf' : inner.found = false := by
        cases h : inner.found
        · rfl
        · exact absurd h hnf
      rcases ispec.2 hnf' with ⟨ihe, ihlo, ihhi, ihleft, ihright⟩
      by_cases hside : m - 32 * outer.hi < inner.lo
      · have hx := ihleft (m - 32 * outer.hi) (by omega) hside
        have hx' : 0 < stardict_strcmp w
            (get_key ks (32 * outer.hi + (m - 32 * outer.hi))) := hx
        rw [show 32 * outer.hi + (m - 32 * outer.hi) = m by ring] at hx'
        omega
      · have hx := ihright (m - 32 * outer.hi) (by omega) (by omega)
        have hx' : stardict_strcmp w
            (get_key ks (32 * outer.hi + (m - 32 * outer.hi))) < 0 := hx
        rw [show 32 * outer.hi + (m - 32 * outer.hi) = m by ring] at hx'
        omega
    rcases ispec.1 hif with ⟨hj1, hj2, hj3⟩
    have hj3' : stardict_strcmp w (get_key ks (32 * outer.hi + inner.idx)) = 0 := hj3
    refine ⟨32 * outer.hi + inner.idx, by omega, by omega, hj3', ?_⟩
    rw [OffsetIndex_lookup_def, if_neg hb1, if_neg hb2, ← houter, ← hnetr, ← hinner,
      if_neg hof, if_pos hif]

theorem Offset_present {ks : List (List Nat)} {w : List Nat}
    (hs : SortedIdx ks) (hz : NoNulIdx ks) (hw : NoNul w) (hmem : w ∈ ks) :
    (OffsetIndex_lookup ks w).found = true ∧
    ∃ i, i ∈ (OffsetIndex_lookup ks w).idxs ∧ get_key ks i = w := by
  obtain ⟨mn, hmn, hget⟩ := List.mem_iff_getElem.mp hmem
  have hm0 : get_key ks (mn : Int) = w := by rw [get_key_natCast ks mn hmn]; exact hget
  have hmnn : (mn : Int) < (ks.length : Int) := by exact_mod_cast hmn
  obtain ⟨iThis, h0, h1, hcmp, hEq⟩ :=
    Offset_found_core hs hz hw (by omega : (0:Int) ≤ (mn : Int)) hmnn hm0
  rw [hEq]
  exact ⟨rfl, iThis, Finset.mem_union_right _ (walkUp_mem_self _ _ _ _),
    (stardict_strcmp_eq_zero hw (get_key_NoNul hz _) hcmp).symm⟩

theorem Offset_block {ks : List (List Nat)} {w : List Nat} {lo hi : Int}
    (hs : SortedIdx ks) (hz : NoNulIdx ks) (hw : NoNul w)
    (hlo : 0 ≤ lo) (hlh : lo ≤ hi) (hhi : hi ≤ (ks.length : Int) - 1)
    (hiff : ∀ i : Int, 0 ≤ i → i ≤ (ks.length : Int) - 1 →
      (stardict_strcmp w (get_key ks i) = 0 ↔ lo ≤ i ∧ i ≤ hi)) :
    OffsetIndex_lookup ks w = ⟨true, Finset.Icc lo hi, none⟩ := by
  have hceq : stardict_strcmp w (get_key ks lo) = 0 :=
    (hiff lo hlo (by omega)).mpr ⟨le_rfl, hlh⟩
  have hwlo : get_key ks lo = w :=
    (stardict_strcmp_eq_zero hw (get_key_NoNul hz _) hceq).symm
  obtain ⟨iThis, h0, h1, hcmp, hEq⟩ :=
    Offset_found_core hs hz hw hlo (by omega) hwlo
  have hblk := (hiff iThis h0 h1).mp hcmp
  rw [hEq, walks_block hlo hhi hiff hblk.1 hblk.2]

/-- For a query strictly between the keys at `t` and `t + 1`, every key at or
below `t` is strictly below the query and every key at or above `t + 1` is
strictly above it. -/
theorem between_sides {ks : List (List Nat)} {w : List Nat} {t : Int}
    (hs : SortedIdx ks) (hz : NoNulIdx ks) (hw : NoNul w)
    (ht0 : 0 ≤ t) (ht1 : t + 1 ≤ (ks.length : Int) - 1)
    (hlt : stardict_strcmp (get_key ks t) w < 0)
    (hgt : stardict_strcmp w (get_key ks (t + 1)) < 0) :
    (∀ i, 0 ≤ i → i ≤ t → 0 < stardict_strcmp w (get_key ks i)) ∧
    (∀ i, t + 1 ≤ i → i ≤ (ks.length : Int) - 1 →
      stardict_strcmp w (get_key ks i) < 0) := by
  constructor
  · intro i h0 hit
    have h := sorted_key_le hs h0 hit (by omega)
    have h2 : stardict_strcmp (get_key ks i) w < 0 :=
      stardict_strcmp_lt_of_le_of_lt (get_key_NoNul hz _) (get_key_NoNul hz _) hw h hlt
    rw [stardict_strcmp_neg] at h2
    omega
  · intro i h1 hin
    have h := sorted_key_le hs (by omega : (0:Int) ≤ t + 1) h1 (by omega)
    exact stardict_strcmp_lt_of_lt_of_le hw (get_key_NoNul hz _) (get_key_NoNul hz _)
      hgt h

theorem Offset_between {ks : List (List Nat)} {w : List Nat} {t : Int}
    (hs : SortedIdx ks) (hz : NoNulIdx ks) (hw : NoNul w)
    (ht0 : 0 ≤ t) (ht1 : t + 1 ≤ (ks.length : Int) - 1)
    (hlt : stardict_strcmp (get_key ks t) w < 0)
    (hgt : stardict_strcmp w (get_key ks (t + 1)) < 0) :
    OffsetIndex_lookup ks w = ⟨false, ∅, some (t + 1)⟩ := by
  obtain ⟨hsL, hsR⟩ := between_sides hs hz hw ht0 ht1 hlt hgt
  have hn1 : (1 : Int) ≤ (ks.length : Int) := by omega
  have hb1 : ¬(stardict_strcmp w (get_key ks 0) < 0) := by
    have := hsL 0 le_rfl ht0
    omega
  have hb2 : ¬(0 < stardict_strcmp w (get_key ks ((ks.length : Int) - 1))) := by
    have := hsR ((ks.length : Int) - 1) ht1 le_rfl
    omega
  have hnoeq : ∀ i : Int, 0 ≤ i → i ≤ (ks.length : Int) - 1 →
      stardict_strcmp w (get_key ks i) ≠ 0 := by
    intro i h0 hn
    by_cases hit : i ≤ t
    · have := hsL i h0 hit
      omega
    · have := hsR i (by omega) hn
      omega
  have spec := bsearch_spec ks w 0 (((ks.length : Int) - 1) / 32) hs hz hw
    (fun p => get_key ks (32 * p)) (fun p => 32 * p) (fun p => rfl)
    (fun i j h1 h2 h3 =>
      ⟨by show (0:Int) ≤ 32 * i; omega, by show (32:Int) * i ≤ 32 * j; omega,
       by show 32 * j < (ks.length : Int); omega⟩) (by omega)
  set outer := bsearch (fun p => get_key ks (32 * p)) w 0 (((ks.length : Int) - 1) / 32)
    with houter
  have hof : outer.found = false := by
    cases h : outer.found
    · rfl
    · rcases spec.1 h with ⟨hp1, hp2, hp3⟩
      have hp3' : stardict_strcmp w (get_key ks (32 * outer.idx)) = 0 := hp3
      exact absurd hp3' (hnoeq _ (by omega) (by omega))
  rcases spec.2 hof with ⟨he, hlo', hhi', hleft, hright⟩
  have hOH0 : 0 ≤ outer.hi := by
    by_contra hcon
    have h0 := hright 0 (by omega) (by omega)
    have h0' : stardict_strcmp w (get_key ks (32 * 0)) < 0 := h0
    rw [show (32 : Int) * 0 = 0 by ring] at h0'
    exact hb1 h0'
  set netr : Int :=
    (if outer.hi = ((ks.length : Int) - 1) / 32 then
      (if (ks.length : Int) % 32 = 0 then 32 else (ks.length : Int) % 32)
    else 32) with hnetr
  have hnetr1 : 1 ≤ netr ∧ netr ≤ 32 := by
    rw [hnetr]; split_ifs <;> omega
  have hfit : 32 * outer.hi + netr ≤ (ks.length : Int) := by
    rw [hnetr]; split_ifs with h1 h2 <;> omega
  have hfitEq : outer.hi = ((ks.length : Int) - 1) / 32 →
      32 * outer.hi + netr = (ks.length : Int) := by
    intro hp
    rw [hnetr, if_pos hp]
    split_ifs with h2 <;> omega
  have ispec := bsearch_spec ks w 0 (netr - 1) hs hz hw
    (fun j => get_key ks (32 * outer.hi + j)) (fun j => 32 * outer.hi + j)
    (fun j => rfl)
    (fun i j h1 h2 h3 =>
      ⟨by show (0:Int) ≤ 32 * outer.hi + i; omega,
       by show (32:Int) * outer.hi + i ≤ 32 * outer.hi + j; omega,
       by show 32 * outer.hi + j < (ks.length : Int); omega⟩) (by omega)
  set inner := bsearch (fun j => get_key ks (32 * outer.hi + j)) w 0 (netr - 1)
    with hinner
  have hif : inner.found = false := by
    cases h : inner.found
    · rfl
    · rcases ispec.1 h with ⟨hj1, hj2, hj3⟩
      have hj3' : stardict_strcmp w (get_key ks (32 * outer.hi + inner.idx)) = 0 := hj3
      exact absurd hj3' (hnoeq _ (by omega) (by omega))
  rcases ispec.2 hif with ⟨ihe, ihlo, ihhi, ihleft, ihright⟩
  have hub : 32 * outer.hi + inner.lo ≤ t + 1 := by
    by_contra hcon
    push_neg at hcon
    by_cases hA : 32 * outer.hi ≤ t + 1
    · have hx := ihleft (t + 1 - 32 * outer.hi) (by omega) (by omega)
      have hx' : 0 < stardict_strcmp w
          (get_key ks (32 * outer.hi + (t + 1 - 32 * outer.hi))) := hx
      rw [show 32 * outer.hi + (t + 1 - 32 * outer.hi) = t + 1 by ring] at hx'
      omega
    · push_neg at hA
      have hl := hleft outer.hi hOH0 (by omega)
      have hl' : 0 < stardict_strcmp w (get_key ks (32 * outer.hi)) := hl
      have := hsR (32 * outer.hi) (by omega) (by omega)
      omega
  have hlb : t + 1 ≤ 32 * outer.hi + inner.lo := by
    by_contra hcon
    push_neg at hcon
    by_cases hA : t ≤ 32 * outer.hi + netr - 1
    · have hx := ihright (t - 32 * outer.hi) (by omega) (by omega)
      have hx' : stardict_strcmp w
          (get_key ks (32 * outer.hi + (t - 32 * outer.hi))) < 0 := hx
      rw [show 32 * outer.hi + (t - 32 * outer.hi) = t by ring] at hx'
      have := hsL t ht0 le_rfl
      omega
    · by_cases hP : outer.hi = ((ks.length : Int) - 1) / 32
      · have := hfitEq hP
        omega
      · have hp1 : outer.hi + 1 ≤ ((ks.length : Int) - 1) / 32 := by omega
        have hr := hright (outer.hi + 1) (by omega) hp1
        have hr' : stardict_strcmp w (get_key ks (32 * (outer.hi + 1))) < 0 := hr
        have hne32 : netr = 32 := by rw [hnetr, if_neg hP]
        have := hsL (32 * (outer.hi + 1)) (by omega) (by omega)
        omega
  rw [OffsetIndex_lookup_def, if_neg hb1, if_neg hb2, ← houter, ← hnetr, ← hinner,
    if_neg (by rw [hof]; exact Bool.false_ne_true),
    if_neg (by rw [hif]; exact Bool.false_ne_true),
    show 32 * outer.hi + inner.lo = t + 1 by omega]

theorem Offset_before_first {ks : List (List Nat)} {w : List Nat}
    (h : stardict_strcmp w (get_key ks 0) < 0) :
    OffsetIndex_lookup ks w = ⟨false, ∅, some 0⟩ := by
  rw [OffsetIndex_lookup_def, if_pos h]

theorem Offset_after_last {ks : List (List Nat)} {w : List Nat}
    (hs : SortedIdx ks) (hz : NoNulIdx ks) (hw : NoNul w) (hne : ks ≠ [])
    (h : 0 < stardict_strcmp w (get_key ks ((ks.length : Int) - 1))) :
    OffsetIndex_lookup ks w = ⟨false, ∅, some INVALID_INDEX⟩ := by
  have hn : 1 ≤ ks.length := List.length_pos.mpr hne
  have hb1 : ¬(stardict_strcmp w (get_key ks 0) < 0) := by
    have hk := sorted_key_le hs (le_refl (0 : Int))
      (by omega : (0:Int) ≤ (ks.length : Int) - 1) (by omega)
    rw [stardict_strcmp_pos_flip] at h
    have h2 : stardict_strcmp (get_key ks 0) w < 0 :=
      stardict_strcmp_lt_of_le_of_lt (get_key_NoNul hz _) (get_key_NoNul hz _) hw hk h
    rw [stardict_strcmp_neg]
    omega
  rw [OffsetIndex_lookup_def, if_neg hb1, if_pos h]

/-- C1: Binary search correctness of index lookup.  For every index sorted in
ascending comparator order (invariant I1) and C-string query: a headword
present in the index is found by both `WordListIndex::lookup` and
`OffsetIndex::lookup` with a non-empty index set containing an `i` whose
`get_key i` equals the query; a query strictly between the consecutive keys
at `t` and `t+1` yields `found = false` with `next_idx = t + 1`; a query
ordered before the first key yields `next_idx = 0`; a query ordered after the
last key yields `next_idx = INVALID_INDEX`. -/
theorem sdcv_C1_binary_search (ks : List (List Nat)) (w : List Nat)
    (hs : SortedIdx ks) (hz : NoNulIdx ks) (hw : NoNul w) (hne : ks ≠ []) :
    (w ∈ ks →
      ((WordListIndex_lookup ks w).found = true ∧
       (WordListIndex_lookup ks w).idxs ≠ ∅ ∧
       (∃ i, i ∈ (WordListIndex_lookup ks w).idxs ∧ get_key ks i = w)) ∧
      ((OffsetIndex_lookup ks w).found = true ∧
       (OffsetIndex_lookup ks w).idxs ≠ ∅ ∧
       (∃ i, i ∈ (OffsetIndex_lookup ks w).idxs ∧ get_key ks i = w))) ∧
    (∀ t : Int, 0 ≤ t → t + 1 ≤ (ks.length : Int) - 1 →
      stardict_strcmp (get_key ks t) w < 0 →
      stardict_strcmp w (get_key ks (t + 1)) < 0 →
      WordListIndex_lookup ks w = ⟨false, ∅, some (t + 1)⟩ ∧
      OffsetIndex_lookup ks w = ⟨false, ∅, some (t + 1)⟩) ∧
    (stardict_strcmp w (get_key ks 0) < 0 →
      WordListIndex_lookup ks w = ⟨false, ∅, some 0⟩ ∧
      OffsetIndex_lookup ks w = ⟨false, ∅, some 0⟩) ∧
    (0 < stardict_strcmp w (get_key ks ((ks.length : Int) - 1)) →
      WordListIndex_lookup ks w = ⟨false, ∅, some INVALID_INDEX⟩ ∧
      OffsetIndex_lookup ks w = ⟨false, ∅, some INVALID_INDEX⟩) := by
  refine ⟨?_, ?_, ?_, ?_⟩
  · intro hmem
    obtain ⟨hf1, i1, hi1, hk1⟩ := WordList_present hs hz hw hmem
    obtain ⟨hf2, i2, hi2, hk2⟩ := Offset_present hs hz hw hmem
    exact ⟨⟨hf1, Finset.ne_empty_of_mem hi1, i1, hi1, hk1⟩,
      ⟨hf2, Finset.ne_empty_of_mem hi2, i2, hi2, hk2⟩⟩
  · intro t ht0 ht1 hlt hgt
    exact ⟨WordList_between hs hz hw ht0 ht1 hlt hgt,
      Offset_between hs hz hw ht0 ht1 hlt hgt⟩
  · intro h
    exact ⟨WordList_before_first h, Offset_before_first h⟩
  · intro h
    exact ⟨WordList_after_last hs hz hw hne h, Offset_after_last hs hz hw hne h⟩

theorem sdcv_C1_binary_search_witness :
    (SortedIdx [[97], [98, 97], [99]] ∧ NoNulIdx [[97], [98, 97], [99]] ∧
     NoNul [98, 97] ∧ ([98, 97] : List Nat) ∈ [[97], [98, 97], [99]]) ∧
    (((WordListIndex_lookup [[97], [98, 97], [99]] [98, 97]).found = true ∧
      (WordListIndex_lookup [[97], [98, 97], [99]] [98, 97]).idxs ≠ ∅ ∧
      (∃ i, i ∈ (WordListIndex_lookup [[97], [98, 97], [99]] [98, 97]).idxs ∧
        get_key [[97], [98, 97], [99]] i = [98, 97])) ∧
     ((OffsetIndex_lookup [[97], [98, 97], [99]] [98, 97]).found = true ∧
      (OffsetIndex_lookup [[97], [98, 97], [99]] [98, 97]).idxs ≠ ∅ ∧
      (∃ i, i ∈ (OffsetIndex_lookup [[97], [98, 97], [99]] [98, 97]).idxs ∧
        get_key [[97], [98, 97], [99]] i = [98, 97]))) :=
  ⟨⟨by decide, by decide, by decide, by decide⟩,
   (sdcv_C1_binary_search [[97], [98, 97], [99]] [98, 97]
     (by decide) (by decide) (by decide) (by decide)).1 (by decide)⟩

/-- C2: Duplicate walking.  When the indices whose keys compare equal to the
query form exactly the block `[lo, hi]` (k = hi - lo + 1 consecutive
entries), both lookups insert exactly those `k` indices — every duplicate and
nothing else. -/
theorem sdcv_C2_duplicate_walk (ks : List (List Nat)) (w : List Nat) (lo hi : Nat)
    (hs : SortedIdx ks) (hz : NoNulIdx ks) (hw : NoNul w)
    (hlh : lo ≤ hi) (hhi : hi < ks.length)
    (hiff : ∀ i : Nat, i < ks.length →
      (stardict_strcmp w (ks.getD i []) = 0 ↔ lo ≤ i ∧ i ≤ hi)) :
    WordListIndex_lookup ks w = ⟨true, Finset.Icc (lo : Int) (hi : Int), none⟩ ∧
    OffsetIndex_lookup ks w = ⟨true, Finset.Icc (lo : Int) (hi : Int), none⟩ ∧
    (Finset.Icc (lo : Int) (hi : Int)).card = hi - lo + 1 := by
  have hiffInt : ∀ i : Int, 0 ≤ i → i ≤ (ks.length : Int) - 1 →
      (stardict_strcmp w (get_key ks i) = 0 ↔ (lo : Int) ≤ i ∧ i ≤ (hi : Int)) := by
    intro i h0 hn
    have hi' : i.toNat < ks.length := by omega
    have := hiff i.toNat hi'
    unfold get_key
    constructor
    · intro hc
      have hb := this.mp hc
      omega
    · intro hb
      exact this.mpr (by omega)
  refine ⟨WordList_block hs hz hw (by omega) (by omega) (by omega) hiffInt,
    Offset_block hs hz hw (by omega) (by omega) (by omega) hiffInt, ?_⟩
  rw [Int.card_Icc]
  omega

theorem sdcv_C2_duplicate_walk_witness :
    (SortedIdx [[97], [98], [98], [98], [99]] ∧ NoNul [98] ∧
     (∀ i : Nat, i < 5 →
       (stardict_strcmp [98] ([[97], [98], [98], [98], [99]].getD i []) = 0 ↔
         1 ≤ i ∧ i ≤ 3))) ∧
    (WordListIndex_lookup [[97], [98], [98], [98], [99]] [98] =
      ⟨true, Finset.Icc (1 : Int) (3 : Int), none⟩ ∧
     OffsetIndex_lookup [[97], [98], [98], [98], [99]] [98] =
      ⟨true, Finset.Icc (1 : Int) (3 : Int), none⟩ ∧
     (Finset.Icc (1 : Int) (3 : Int)).card = 3) :=
  ⟨⟨by decide, by decide, by decide⟩,
   sdcv_C2_duplicate_walk [[97], [98], [98], [98], [99]] [98] 1 3
     (by decide) (by decide) (by decide) (by decide) (by decide) (by decide)⟩

/-- C3: The comparator `stardict_strcmp a b` equals `g_ascii_strcasecmp a b`
whenever that primary comparison is non-zero and equals byte-wise
`strcmp a b` otherwise; on C-string headwords the induced relation is a total
order: reflexive (`cmp a a = 0`), antisymmetric in sign, and transitive. -/
theorem sdcv_C3_comparator_total_order (a b c : List Nat)
    (ha : NoNul a) (hb : NoNul b) (hc : NoNul c) :
    (g_ascii_strcasecmp a b ≠ 0 → stardict_strcmp a b = g_ascii_strcasecmp a b) ∧
    (g_ascii_strcasecmp a b = 0 → stardict_strcmp a b = strcmp a b) ∧
    stardict_strcmp a a = 0 ∧
    Int.sign (stardict_strcmp a b) = -Int.sign (stardict_strcmp b a) ∧
    (stardict_strcmp a b < 0 → stardict_strcmp b c < 0 → stardict_strcmp a c < 0) := by
  refine ⟨?_, ?_, stardict_strcmp_self a, ?_, stardict_strcmp_trans ha hb hc⟩
  · intro h
    rw [stardict_strcmp_eq, if_neg h]
  · intro h
    rw [stardict_strcmp_eq, if_pos h]
  · rw [stardict_strcmp_neg a b, Int.sign_neg]

theorem sdcv_C3_comparator_total_order_witness :
    (NoNul [97, 66] ∧ NoNul [97, 98, 99] ∧ NoNul [98]) ∧
    ((g_ascii_strcasecmp [97, 66] [97, 98, 99] ≠ 0 →
      stardict_strcmp [97, 66] [97, 98, 99] = g_ascii_strcasecmp [97, 66] [97, 98, 99]) ∧
     (g_ascii_strcasecmp [97, 66] [97, 98, 99] = 0 →
      stardict_strcmp [97, 66] [97, 98, 99] = strcmp [97, 66] [97, 98, 99]) ∧
     stardict_strcmp [97, 66] [97, 66] = 0 ∧
     Int.sign (stardict_strcmp [97, 66] [97, 98, 99]) =
       -Int.sign (stardict_strcmp [97, 98, 99] [97, 66]) ∧
     (stardict_strcmp [97, 66] [97, 98, 99] < 0 →
      stardict_strcmp [97, 98, 99] [98] < 0 →
      stardict_strcmp [97, 66] [98] < 0)) :=
  ⟨⟨by decide, by decide, by decide⟩,
   sdcv_C3_comparator_total_order [97, 66] [97, 98, 99] [98]
     (by decide) (by decide) (by decide)⟩

theorem length_dropWhile_le (q : Nat → Bool) (l : List Nat) :
    (l.dropWhile q).length ≤ l.length := by
  induction l with
  | nil => simp
  | cons c t ih =>
    rw [List.dropWhile_cons]
    split
    · simp only [List.length_cons]
      omega
    · simp

theorem takeWhile_append_stop {q : Nat → Bool} {k : List Nat} {a : Nat} (t : List Nat)
    (hk : ∀ c ∈ k, q c = true) (ha : q a = false) :
    (k ++ a :: t).takeWhile q = k := by
  induction k with
  | nil =>
    rw [List.nil_append, List.takeWhile_cons, if_neg (by simp [ha])]
  | cons c k' ih =>
    have hc : q c = true := hk c (List.mem_cons_self _ _)
    rw [List.cons_append, List.takeWhile_cons, if_pos hc,
      ih (fun d hd => hk d (List.mem_cons_of_mem _ hd))]

theorem dropWhile_append_stop {q : Nat → Bool} {k : List Nat} {a : Nat} (t : List Nat)
    (hk : ∀ c ∈ k, q c = true) (ha : q a = false) :
    (k ++ a :: t).dropWhile q = a :: t := by
  induction k with
  | nil =>
    rw [List.nil_append, List.dropWhile_cons, if_neg (by simp [ha])]
  | cons c k' ih =>
    have hc : q c = true := hk c (List.mem_cons_self _ _)
    rw [List.cons_append, List.dropWhile_cons, if_pos hc]
    exact ih (fun d hd => hk d (List.mem_cons_of_mem _ hd))

theorem parseIfoStep_congr (r1 r2 : List Nat → Option (List (List Nat × List Nat)))
    (p : List Nat) (h : ∀ q : List Nat, q.length + 2 ≤ p.length → r1 q = r2 q) :
    parseIfoStep r1 p = parseIfoStep r2 p := by
  simp only [parseIfoStep]
  by_cases h1 : p.dropWhile (fun c => g_ascii_isspace c) = []
  · rw [if_pos h1, if_pos h1]
  · rw [if_neg h1, if_neg h1]
    by_cases h2 : (p.dropWhile (fun c => g_ascii_isspace c)).dropWhile
        (fun c => c ≠ 61) = []
    · rw [if_pos h2, if_pos h2]
    · rw [if_neg h2, if_neg h2]
      by_cases h3 : ((p.dropWhile (fun c => g_ascii_isspace c)).dropWhile
          (fun c => c ≠ 61)).tail.dropWhile (fun c => g_ascii_isspace c) = []
      · rw [if_pos h3, if_pos h3]
      · rw [if_neg h3, if_neg h3]
        by_cases h4 : (((p.dropWhile (fun c => g_ascii_isspace c)).dropWhile
            (fun c => c ≠ 61)).tail.dropWhile (fun c => g_ascii_isspace c)).dropWhile
            (fun c => ¬(isCRLF c = true)) = []
        · rw [if_pos h4, if_pos h4]
        · rw [if_neg h4, if_neg h4]
          have hlen : ((((p.dropWhile (fun c => g_ascii_isspace c)).dropWhile
              (fun c => c ≠ 61)).tail.dropWhile
              (fun c => g_ascii_isspace c)).dropWhile
              (fun c => ¬(isCRLF c = true))).tail.length + 2 ≤ p.length := by
            have l1 := length_dropWhile_le (fun c => g_ascii_isspace c) p
            have l2 := length_dropWhile_le (fun c => decide (c ≠ 61))
              (p.dropWhile (fun c => c ≠ 61))
            have l2b := length_dropWhile_le (fun c => decide (c ≠ 61))
              (p.dropWhile (fun c => g_ascii_isspace c))
            have l3 := length_dropWhile_le (fun c => g_ascii_isspace c)
              ((p.dropWhile (fun c => g_ascii_isspace c)).dropWhile
                (fun c => c ≠ 61)).tail
            have l4 := length_dropWhile_le (fun c => decide (¬(isCRLF c = true)))
              (((p.dropWhile (fun c => g_ascii_isspace c)).dropWhile
                (fun c => c ≠ 61)).tail.dropWhile (fun c => g_ascii_isspace c))
            have e2 : ((p.dropWhile (fun c => g_ascii_isspace c)).dropWhile
                (fun c => c ≠ 61)).length ≥ 1 := by
              rcases List.length_pos.mpr h2 with h
              omega
            have e4 : ((((p.dropWhile (fun c => g_ascii_isspace c)).dropWhile
                (fun c => c ≠ 61)).tail.dropWhile
                (fun c => g_ascii_isspace c)).dropWhile
                (fun c => ¬(isCRLF c = true))).length ≥ 1 := by
              rcases List.length_pos.mpr h4 with h
              omega
            simp only [List.length_tail] at *
            omega
          rw [h _ hlen]

theorem parseIfoBodyGo_fuel : ∀ f1 f2 p, p.length < f1 → p.length < f2 →
    parseIfoBodyGo f1 p = parseIfoBodyGo f2 p := by
  intro f1
  induction f1 with
  | zero =>
    intro f2 p h
    omega
  | succ n ih =>
    intro f2 p h1 h2
    cases f2 with
    | zero => omega
    | succ m =>
      show parseIfoStep (parseIfoBodyGo n) p = parseIfoStep (parseIfoBodyGo m) p
      apply parseIfoStep_congr
      intro q hq
      exact ih m q (by omega) (by omega)

/-- The run-to-completion parser satisfies the one-step unfolding. -/
theorem parseIfoBody_eq_step (p : List Nat) :
    parseIfoBody p = parseIfoStep parseIfoBody p := by
  show parseIfoStep (parseIfoBodyGo p.length) p = parseIfoStep parseIfoBody p
  apply parseIfoStep_congr
  intro q hq
  exact parseIfoBodyGo_fuel p.length (q.length + 1) q (by omega) (by omega)

theorem dropWhile_append_all {q : Nat → Bool} {k : List Nat} (r : List Nat)
    (hk : ∀ c ∈ k, q c = true) :
    (k ++ r).dropWhile q = r.dropWhile q := by
  induction k with
  | nil => rfl
  | cons c k' ih =>
    rw [List.cons_append, List.dropWhile_cons, if_pos (hk c (List.mem_cons_self _ _))]
    exact ih (fun d hd => hk d (List.mem_cons_of_mem _ hd))

theorem mem_of_mem_dropWhile {q : Nat → Bool} {l : List Nat} {c : Nat}
    (h : c ∈ l.dropWhile q) : c ∈ l := by
  induction l with
  | nil => simp at h
  | cons a t ih =>
    rw [List.dropWhile_cons] at h
    by_cases ha : q a = true
    · rw [if_pos ha] at h
      exact List.mem_cons_of_mem _ (ih h)
    · rw [if_neg ha] at h
      exact h

theorem parseIfoBody_ws (wsp r : List Nat)
    (h : ∀ c ∈ wsp, g_ascii_isspace c = true) :
    parseIfoBody (wsp ++ r) = parseIfoBody r := by
  rw [parseIfoBody_eq_step, parseIfoBody_eq_step]
  simp only [parseIfoStep]
  rw [dropWhile_append_all r h]

theorem parseIfoBody_line (k v rest : List Nat)
    (hk61 : ∀ c ∈ k, c ≠ 61) (hkh : ∀ c ∈ k.take 1, g_ascii_isspace c = false)
    (hv : v ≠ []) (hvh : ∀ c ∈ v.take 1, g_ascii_isspace c = false)
    (hvc : ∀ c ∈ v, isCRLF c = false) :
    parseIfoBody (k ++ 61 :: (v ++ 10 :: rest)) =
      Option.map (fun kvs => (k, v) :: kvs) (parseIfoBody rest) := by
  rw [parseIfoBody_eq_step]
  simp only [parseIfoStep]
  have h1 : (k ++ 61 :: (v ++ 10 :: rest)).dropWhile (fun c => g_ascii_isspace c) =
      k ++ 61 :: (v ++ 10 :: rest) := by
    cases k with
    | nil =>
      rw [List.nil_append, List.dropWhile_cons, if_neg (by simp [g_ascii_isspace])]
    | cons c k' =>
      rw [List.cons_append, List.dropWhile_cons,
        if_neg (by simp [hkh c (by simp [List.take])])]
  rw [h1, if_neg (by simp)]
  rw [takeWhile_append_stop (v ++ 10 :: rest) (fun c hc => by simp [hk61 c hc])
    (by simp),
    dropWhile_append_stop (v ++ 10 :: rest) (fun c hc => by simp [hk61 c hc])
    (by simp)]
  rw [if_neg (by simp)]
  simp only [List.tail_cons]
  have h5 : (v ++ 10 :: rest).dropWhile (fun c => g_ascii_isspace c) =
      v ++ 10 :: rest := by
    cases v with
    | nil => exact absurd rfl hv
    | cons c v' =>
      rw [List.cons_append, List.dropWhile_cons,
        if_neg (by simp [hvh c (by simp [List.take])])]
  rw [h5, if_neg (by simp)]
  rw [takeWhile_append_stop rest (fun c hc => by simp [hvc c hc])
    (by simp [isCRLF]),
    dropWhile_append_stop rest (fun c hc => by simp [hvc c hc])
    (by simp [isCRLF])]
  rw [if_neg (by simp)]
  simp only [List.tail_cons]
  cases hpr : parseIfoBody rest <;> simp [hpr]

theorem parseIfoBody_eof_value (k : List Nat)
    (hk61 : ∀ c ∈ k, c ≠ 61) (hkh : ∀ c ∈ k.take 1, g_ascii_isspace c = false) :
    parseIfoBody (k ++ [61]) = some [(k, [])] := by
  rw [parseIfoBody_eq_step]
  simp only [parseIfoStep]
  have h1 : (k ++ [61]).dropWhile (fun c => g_ascii_isspace c) = k ++ [61] := by
    cases k with
    | nil =>
      rw [List.nil_append, List.dropWhile_cons, if_neg (by simp [g_ascii_isspace])]
    | cons c k' =>
      rw [List.cons_append, List.dropWhile_cons,
        if_neg (by simp [hkh c (by simp [List.take])])]
  rw [h1, if_neg (by simp)]
  rw [takeWhile_append_stop ([] : List Nat) (fun c hc => by simp [hk61 c hc])
    (by simp),
    dropWhile_append_stop ([] : List Nat) (fun c hc => by simp [hk61 c hc])
    (by simp)]
  rw [if_neg (by simp)]
  simp only [List.tail_cons]
  simp

theorem parseIfoBody_noeq (body : List Nat)
    (hne : body.dropWhile (fun c => g_ascii_isspace c) ≠ [])
    (h61 : ∀ c ∈ body, c ≠ 61) :
    parseIfoBody body = none := by
  rw [parseIfoBody_eq_step]
  simp only [parseIfoStep]
  rw [if_neg hne]
  have hall : (body.dropWhile (fun c => g_ascii_isspace c)).dropWhile
      (fun c => c ≠ 61) = [] := by
    rw [List.dropWhile_eq_nil_iff]
    intro x hx
    simp [h61 x (mem_of_mem_dropWhile hx)]
  rw [if_pos hall]

/-- C6 counterexample: the ifo body parser does not keep values verbatim from
directly after the `=`: in the body `a= b` the stored value is `b`, with the
leading space stripped, not the verbatim ` b`; moreover the skip can cross a
line end (`a=` followed by a newline takes the next line as the value), and a
body whose first non-whitespace run `abc` has no `=` still parses without
error because the `=` search runs to end of file. -/
theorem sdcv_C6_counterexample :
    (parseIfoBody [97, 61, 32, 98] = some [([97], [98])] ∧
     ([98] : List Nat) ≠ [32, 98]) ∧
    parseIfoBody [97, 61, 10, 98, 61, 99] = some [([97], [98, 61, 99])] ∧
    parseIfoBody [97, 98, 99, 10, 100, 61, 101] =
      some [([97, 98, 99, 10, 100], [101])] := by
  exact ⟨⟨by decide, by decide⟩, by decide, by decide⟩

/-- C6 (amended): the ifo body parser skips ASCII whitespace before the key,
reads the key up to the first `=` anywhere in the remaining file, skips ASCII
whitespace (line breaks included) after the `=`, and stores the value from
the first non-whitespace byte up to the next CR/LF or end of file, trailing
whitespace preserved; a blank value at end of file is stored empty; a body
whose remainder holds a non-whitespace byte but no `=` at all is a parse
error. -/
theorem sdcv_C6_ifo_body_parse :
    (∀ wsp r : List Nat, (∀ c ∈ wsp, g_ascii_isspace c = true) →
      parseIfoBody (wsp ++ r) = parseIfoBody r) ∧
    (∀ k v rest : List Nat, (∀ c ∈ k, c ≠ 61) →
      (∀ c ∈ k.take 1, g_ascii_isspace c = false) → v ≠ [] →
      (∀ c ∈ v.take 1, g_ascii_isspace c = false) →
      (∀ c ∈ v, isCRLF c = false) →
      parseIfoBody (k ++ 61 :: (v ++ 10 :: rest)) =
        Option.map (fun kvs => (k, v) :: kvs) (parseIfoBody rest)) ∧
    (∀ k : List Nat, (∀ c ∈ k, c ≠ 61) →
      (∀ c ∈ k.take 1, g_ascii_isspace c = false) →
      parseIfoBody (k ++ [61]) = some [(k, [])]) ∧
    (∀ body : List Nat, body.dropWhile (fun c => g_ascii_isspace c) ≠ [] →
      (∀ c ∈ body, c ≠ 61) → parseIfoBody body = none) :=
  ⟨parseIfoBody_ws, parseIfoBody_line, parseIfoBody_eof_value, parseIfoBody_noeq⟩

theorem sdcv_C6_ifo_body_parse_witness :
    ((∀ c ∈ ([97] : List Nat), c ≠ 61) ∧ ([98, 32] : List Nat) ≠ []) ∧
    parseIfoBody ([97] ++ 61 :: ([98, 32] ++ 10 :: [99, 61, 100])) =
      Option.map (fun kvs => (([97] : List Nat), ([98, 32] : List Nat)) :: kvs)
        (parseIfoBody [99, 61, 100]) :=
  ⟨⟨by decide, by decide⟩,
   sdcv_C6_ifo_body_parse.2.1 [97] [98, 32] [99, 61, 100]
     (by decide) (by decide) (by decide) (by decide) (by decide)⟩

/-- C9: `Dict::load` returns false — the dictionary is rejected — whenever
the `.ifo` file parses successfully but its `wordcount` value is 0, no
matter whether the companion `.dict`/`.dict.dz` and index files open
successfully. -/
theorem sdcv_C9_zero_wordcount (content : List Nat) (dictOk idxOk : Bool)
    (di : DictInfo) (hp : load_from_ifo_file content = some di)
    (h0 : di.wordcount = 0) :
    Dict_load content dictOk idxOk = false := by
  unfold Dict_load Dict_load_ifofile
  rw [hp]
  simp [h0]

theorem sdcv_C9_zero_wordcount_witness :
    (load_from_ifo_file
      [83, 116, 97, 114, 68, 105, 99, 116, 39, 115, 32, 100, 105, 99, 116, 32,
       105, 102, 111, 32, 102, 105, 108, 101, 10, 119, 111, 114, 100, 99, 111,
       117, 110, 116, 61, 48, 10, 105, 100, 120, 102, 105, 108, 101, 115, 105,
       122, 101, 61, 53, 10, 98, 111, 111, 107, 110, 97, 109, 101, 61, 66] =
      some (DictInfo.mk 0 5 [66] [] 0) ∧
     (DictInfo.mk 0 5 [66] [] 0).wordcount = 0) ∧
    Dict_load
      [83, 116, 97, 114, 68, 105, 99, 116, 39, 115, 32, 100, 105, 99, 116, 32,
       105, 102, 111, 32, 102, 105, 108, 101, 10, 119, 111, 114, 100, 99, 111,
       117, 110, 116, 61, 48, 10, 105, 100, 120, 102, 105, 108, 101, 115, 105,
       122, 101, 61, 53, 10, 98, 111, 111, 107, 110, 97, 109, 101, 61, 66]
      true true = false :=
  ⟨⟨by decide, by decide⟩,
   sdcv_C9_zero_wordcount _ true true (DictInfo.mk 0 5 [66] [] 0)
     (by decide) (by decide)⟩

theorem anaLoop_bs_cons (d : Nat) (rest2 : List Nat) (rg : Bool) :
    anaLoop (92 :: d :: rest2) rg =
      ((anaLoop rest2 rg).1, d :: (anaLoop rest2 rg).2) := rfl

theorem anaLoop_other (c : Nat) (rest : List Nat) (rg : Bool) (hc : c ≠ 92) :
    anaLoop (c :: rest) rg =
      ((anaLoop rest (rg || (c = 42 || c = 63))).1,
       c :: (anaLoop rest (rg || (c = 42 || c = 63))).2) := by
  cases rest with
  | nil =>
    rw [show anaLoop [c] rg =
      (if c = 92 then ((rg, []) : Bool × List Nat)
       else ((anaLoop [] (rg || (c = 42 || c = 63))).1,
         c :: (anaLoop [] (rg || (c = 42 || c = 63))).2)) from rfl, if_neg hc]
  | cons d r2 =>
    rw [show anaLoop (c :: d :: r2) rg =
      (if c = 92 then ((anaLoop r2 rg).1, d :: (anaLoop r2 rg).2)
       else ((anaLoop (d :: r2) (rg || (c = 42 || c = 63))).1,
         c :: (anaLoop (d :: r2) (rg || (c = 42 || c = 63))).2)) from rfl,
      if_neg hc]

theorem removeEscapes_bs_cons (d : Nat) (rest2 : List Nat) :
    removeEscapes (92 :: d :: rest2) = d :: removeEscapes rest2 := rfl

theorem removeEscapes_other (c : Nat) (rest : List Nat) (hc : c ≠ 92) :
    removeEscapes (c :: rest) = c :: removeEscapes rest := by
  cases rest with
  | nil =>
    rw [show removeEscapes [c] =
      (if c = 92 then ([] : List Nat) else c :: removeEscapes []) from rfl,
      if_neg hc]
  | cons d r2 =>
    rw [show removeEscapes (c :: d :: r2) =
      (if c = 92 then d :: removeEscapes r2
       else c :: removeEscapes (d :: r2)) from rfl, if_neg hc]

theorem hasUnescapedGlob_bs_cons (d : Nat) (rest2 : List Nat) :
    hasUnescapedGlob (92 :: d :: rest2) = hasUnescapedGlob rest2 := rfl

theorem hasUnescapedGlob_other (c : Nat) (rest : List Nat) (hc : c ≠ 92) :
    hasUnescapedGlob (c :: rest) =
      ((c = 42 || c = 63) || hasUnescapedGlob rest) := by
  cases rest with
  | nil =>
    rw [show hasUnescapedGlob [c] =
      (if c = 92 then false else ((c = 42 || c = 63) || hasUnescapedGlob []))
      from rfl, if_neg hc]
  | cons d r2 =>
    rw [show hasUnescapedGlob (c :: d :: r2) =
      (if c = 92 then hasUnescapedGlob r2
       else ((c = 42 || c = 63) || hasUnescapedGlob (d :: r2))) from rfl,
      if_neg hc]

theorem anaLoop_eq : ∀ (n : Nat) (s : List Nat), s.length ≤ n → ∀ rg : Bool,
    anaLoop s rg = (rg || hasUnescapedGlob s, removeEscapes s) := by
  intro n
  induction n with
  | zero =>
    intro s hs rg
    match s with
    | [] => simp [anaLoop, hasUnescapedGlob, removeEscapes]
    | c :: rest => simp at hs
  | succ n ih =>
    intro s hs rg
    match s with
    | [] => simp [anaLoop, hasUnescapedGlob, removeEscapes]
    | c :: rest =>
      by_cases hc : c = 92
      · subst hc
        match rest with
        | [] => simp [anaLoop, hasUnescapedGlob, removeEscapes]
        | d :: rest2 =>
          have hr := ih rest2 (by simp at hs; omega) rg
          rw [anaLoop_bs_cons, hr, hasUnescapedGlob_bs_cons, removeEscapes_bs_cons]
      · have hr := ih rest (by simp at hs; omega) (rg || (c = 42 || c = 63))
        rw [anaLoop_other c rest rg hc, hr, hasUnescapedGlob_other c rest hc,
          removeEscapes_other c rest hc, Bool.or_assoc]

theorem trailBS_le (l : List Nat) : trailBS l ≤ l.length := by
  induction l with
  | nil => simp [trailBS]
  | cons c r ih =>
    rw [trailBS]
    split
    · simp
    · simp only [List.length_cons]
      omega

theorem trailBS_cons_ne (c : Nat) (rest : List Nat) (hc : c ≠ 92) :
    trailBS (c :: rest) = trailBS rest := by
  rw [trailBS, if_neg (by intro hcon; exact hc hcon.1)]

theorem trailBS_bs_parity (d : Nat) (rest2 : List Nat) :
    trailBS (92 :: d :: rest2) % 2 = trailBS rest2 % 2 := by
  have hle := trailBS_le rest2
  rw [show trailBS (92 :: d :: rest2) =
      (if (92 : Nat) = 92 ∧ trailBS (d :: rest2) = (d :: rest2).length then
        (d :: rest2).length + 1
      else trailBS (d :: rest2)) from rfl]
  by_cases hall : trailBS (d :: rest2) = (d :: rest2).length
  · rw [if_pos ⟨rfl, hall⟩]
    have : trailBS rest2 = rest2.length := by
      rw [trailBS] at hall
      by_cases hcond : d = 92 ∧ trailBS rest2 = rest2.length
      · exact hcond.2
      · rw [if_neg hcond] at hall
        simp only [List.length_cons] at hall
        omega
    simp only [List.length_cons]
    omega
  · rw [if_neg (by intro hcon; exact hall hcon.2)]
    rw [trailBS] at hall ⊢
    by_cases hcond : d = 92 ∧ trailBS rest2 = rest2.length
    · rw [if_pos hcond] at hall
      exact absurd (by simp) hall
    · rw [if_neg hcond]

theorem anaLoop_append_bs : ∀ (n : Nat) (r : List Nat), r.length ≤ n →
    trailBS r % 2 = 0 → ∀ rg : Bool, anaLoop (r ++ [92]) rg = anaLoop r rg := by
  intro n
  induction n with
  | zero =>
    intro r hr hpar rg
    match r with
    | [] => rfl
    | c :: rest => simp at hr
  | succ n ih =>
    intro r hr hpar rg
    match r with
    | [] => rfl
    | c :: rest =>
      by_cases hc : c = 92
      · subst hc
        match rest with
        | [] =>
          exfalso
          have : trailBS [92] = 1 := by decide
          rw [this] at hpar
          omega
        | d :: rest2 =>
          have hpar2 : trailBS rest2 % 2 = 0 := by
            rw [trailBS_bs_parity] at hpar
            exact hpar
          have hrec := ih rest2 (by simp at hr; omega) hpar2 rg
          show ((anaLoop (rest2 ++ [92]) rg).1, d :: (anaLoop (rest2 ++ [92]) rg).2) =
            ((anaLoop rest2 rg).1, d :: (anaLoop rest2 rg).2)
          rw [hrec]
      · have hpar2 : trailBS rest % 2 = 0 := by
          rw [trailBS_cons_ne c rest hc] at hpar
          exact hpar
        have hrec := ih rest (by simp at hr; omega) hpar2 (rg || (c = 42 || c = 63))
        rw [List.cons_append, anaLoop_other c (rest ++ [92]) rg hc,
          anaLoop_other c rest rg hc, hrec]

/-- C7 counterexample: `analyze_query` does not remove escape prefixes from
the payload of a `|`-prefixed DATA query (nor of a `/`-prefixed FUZZY query):
for the raw query `|a` preceded by a backslash before the `a`, the returned
payload keeps the backslash, while the claim's escape-stripped payload does
not. -/
theorem sdcv_C7_counterexample :
    analyze_query [124, 92, 97] = (query_t.qtDATA, [92, 97]) ∧
    removeEscapes [92, 97] = [97] ∧
    ([92, 97] : List Nat) ≠ [97] :=
  ⟨by decide, by decide, by decide⟩

/-- C7 (amended): the empty query maps to SIMPLE with payload `""`; a leading
`/` gives FUZZY and a leading `|` gives DATA, each with the prefix stripped
and the remainder returned verbatim (escapes untouched); any other query is
REGEXP exactly when it contains an unescaped `*` or `?`, otherwise SIMPLE,
and in these two cases (only) the payload is the query with escape prefixes
removed. -/
theorem sdcv_C7_query_classification :
    analyze_query [] = (query_t.qtSIMPLE, []) ∧
    (∀ rest : List Nat, analyze_query (47 :: rest) = (query_t.qtFUZZY, rest)) ∧
    (∀ rest : List Nat, analyze_query (124 :: rest) = (query_t.qtDATA, rest)) ∧
    (∀ (c : Nat) (rest : List Nat), c ≠ 47 → c ≠ 124 →
      analyze_query (c :: rest) =
        (if hasUnescapedGlob (c :: rest) then query_t.qtREGEXP
         else query_t.qtSIMPLE,
         removeEscapes (c :: rest))) := by
  refine ⟨rfl, ?_, ?_, ?_⟩
  · intro rest
    rfl
  · intro rest
    rfl
  · intro c rest hc47 hc124
    have hunf : analyze_query (c :: rest) =
        (if c = 47 then (query_t.qtFUZZY, rest)
         else if c = 124 then (query_t.qtDATA, rest)
         else
           (if (anaLoop (c :: rest) false).1 then query_t.qtREGEXP
            else query_t.qtSIMPLE, (anaLoop (c :: rest) false).2)) := rfl
    rw [hunf, if_neg hc47, if_neg hc124,
      anaLoop_eq (c :: rest).length (c :: rest) le_rfl false]
    simp

theorem sdcv_C7_query_classification_witness :
    ((97 : Nat) ≠ 47 ∧ (97 : Nat) ≠ 124) ∧
    analyze_query (97 :: [42]) =
      (if hasUnescapedGlob (97 :: [42]) then query_t.qtREGEXP
       else query_t.qtSIMPLE,
       removeEscapes (97 :: [42])) :=
  ⟨⟨by decide, by decide⟩,
   sdcv_C7_query_classification.2.2.2 97 [42] (by decide) (by decide)⟩

/-- C10 counterexample: for the query `/` followed by a single backslash, the
trailing backslash is not dropped from the payload — the FUZZY branch returns
the remainder verbatim, so the payload is exactly that backslash. -/
theorem sdcv_C10_counterexample :
    analyze_query [47, 92] = (query_t.qtFUZZY, [92]) ∧ ([92] : List Nat) ≠ [] :=
  ⟨by decide, by decide⟩

/-- C10 (amended): for a query that does not begin with `/` or `|` and ends
in a single (unescaped) trailing backslash — its backslash suffix before the
final one has even length — `analyze_query` returns exactly the result for
the query without that final backslash: the backslash is dropped from the
payload and never causes a REGEXP classification. -/
theorem sdcv_C10_trailing_backslash (r : List Nat)
    (hpar : trailBS r % 2 = 0)
    (hhead : ∀ c ∈ r.take 1, c ≠ 47 ∧ c ≠ 124) :
    analyze_query (r ++ [92]) = analyze_query r := by
  match r with
  | [] => decide
  | c :: rest =>
    obtain ⟨hc47, hc124⟩ := hhead c (by simp [List.take])
    have hunf : ∀ q : List Nat, analyze_query (c :: q) =
        (if c = 47 then (query_t.qtFUZZY, q)
         else if c = 124 then (query_t.qtDATA, q)
         else
           (if (anaLoop (c :: q) false).1 then query_t.qtREGEXP
            else query_t.qtSIMPLE, (anaLoop (c :: q) false).2)) := fun q => rfl
    rw [List.cons_append, hunf (rest ++ [92]), hunf rest,
      if_neg hc47, if_neg hc47, if_neg hc124, if_neg hc124,
      show anaLoop (c :: (rest ++ [92])) false =
        anaLoop ((c :: rest) ++ [92]) false from rfl,
      anaLoop_append_bs (c :: rest).length (c :: rest) le_rfl hpar false]

theorem sdcv_C10_trailing_backslash_witness :
    (trailBS [97] % 2 = 0 ∧ (∀ c ∈ ([97] : List Nat).take 1, c ≠ 47 ∧ c ≠ 124)) ∧
    analyze_query ([97] ++ [92]) = analyze_query [97] :=
  ⟨⟨by decide, by decide⟩,
   sdcv_C10_trailing_backslash [97] (by decide) (by decide)⟩

/-- C8 counterexample: the claim asserts that for some pure-ASCII word of
length exactly 2 the `ed` test's read of `sWord[iWordLen - 2]` is out of
bounds.  The read positions depend only on the length: for length 2 the test
starts at index 0, and even on the word `ed` itself — where the comparison
matches and reads the most — every index read is within the two in-bounds
positions of the string. -/
theorem sdcv_C8_counterexample :
    edSuffixReads [101, 100] = [0] ++ [0, 1] ∧
    (∀ i ∈ edSuffixReads [101, 100], i < 2) ∧
    edSuffixTest [101, 100] = true :=
  ⟨by decide, by decide, by decide⟩

/-- C8 (amended): in the trim-s/ed branch, guarded by `iWordLen > 1`, the
`ed`/`ED` suffix test reads only the indices `iWordLen - 2` and
`iWordLen - 1`, both inside the bounds of the input string — the access is
safe for 2-letter words (the spec's proposed `> 2` tightening is not needed
for memory safety). -/
theorem sdcv_C8_ed_test_in_bounds (w : List Nat) (h : 1 < w.length) :
    (∀ i ∈ edSuffixReads w, i < w.length) ∧
    (∀ i ∈ edSuffixReads w, i = w.length - 2 ∨ i = w.length - 1) := by
  constructor <;>
  · intro i hi
    unfold edSuffixReads strncmp2_reads at hi
    rcases List.mem_append.mp hi with hx | hx <;>
    · split at hx <;> simp at hx <;> omega

theorem sdcv_C8_ed_test_in_bounds_witness :
    1 < ([97, 98] : List Nat).length ∧
    ((∀ i ∈ edSuffixReads [97, 98], i < ([97, 98] : List Nat).length) ∧
     (∀ i ∈ edSuffixReads [97, 98],
       i = ([97, 98] : List Nat).length - 2 ∨
       i = ([97, 98] : List Nat).length - 1)) :=
  ⟨by decide, sdcv_C8_ed_test_in_bounds [97, 98] (by decide)⟩

theorem foldl_max_le {l : List Fuzzystruct} {b init : Nat}
    (hinit : init ≤ b) (hl : ∀ sl ∈ l, sl.iMatchWordDistance ≤ b) :
    l.foldl (fun m sl => max m sl.iMatchWordDistance) init ≤ b := by
  induction l generalizing init with
  | nil => simpa using hinit
  | cons x t ih =>
    simp only [List.foldl_cons]
    exact ih (max_le hinit (hl x (List.mem_cons_self _ _)))
      (fun sl hsl => hl sl (List.mem_cons_of_mem _ hsl))

theorem mem_set_cases {l : List Fuzzystruct} {i : Nat} {a x : Fuzzystruct}
    (h : x ∈ l.set i a) : x ∈ l ∨ x = a := by
  induction l generalizing i with
  | nil => simp at h
  | cons y t ih =>
    cases i with
    | zero =>
      rcases List.mem_cons.mp h with h | h
      · exact Or.inr h
      · exact Or.inl (List.mem_cons_of_mem _ h)
    | succ n =>
      rcases List.mem_cons.mp h with h | h
      · exact Or.inl (h ▸ List.mem_cons_self _ _)
      · rcases ih h with h | h
        · exact Or.inl (List.mem_cons_of_mem _ h)
        · exact Or.inr h

theorem foldl_preserves {α σ : Type} (P : σ → Prop) (f : σ → α → σ)
    (hstep : ∀ s a, P s → P (f s a)) :
    ∀ (l : List α) (s : σ), P s → P (l.foldl f s) := by
  intro l
  induction l with
  | nil => intro s hs; exact hs
  | cons x t ih =>
    intro s hs
    exact ih (f s x) (hstep s x hs)

theorem fuzzy_step_inv (lenQ : Int) (fq : List Nat)
    (st : Bool × Nat × List Fuzzystruct) (c : List Nat)
    (h : FuzzyInv lenQ fq st) : FuzzyInv lenQ fq (fuzzy_step lenQ fq st c) := by
  obtain ⟨f, maxd, slots⟩ := st
  obtain ⟨hmax, hdist, hword⟩ := h
  have hmax3 : maxd ≤ 3 := hmax
  simp only [fuzzy_step]
  by_cases hsk : ((c.length : Int) - lenQ ≥ (maxd : Int) ∨
      lenQ - (c.length : Int) ≥ (maxd : Int))
  · rw [if_pos hsk]
    exact ⟨hmax, hdist, hword⟩
  · rw [if_neg hsk]
    push_neg at hsk
    by_cases hd : CalEditDistance (unicode_strdown (fuzzy_trunc lenQ c)) fq maxd
        < maxd ∧
        ((CalEditDistance (unicode_strdown (fuzzy_trunc lenQ c)) fq maxd : Int)
          < lenQ)
    · rw [if_pos hd]
      by_cases hin : slots.any (fun sl => sl.pMatchWord = some c) = true
      · rw [if_pos hin]
        exact ⟨hmax, hdist, hword⟩
      · rw [if_neg hin]
        have hlev : levenshtein (unicode_strdown (fuzzy_trunc lenQ c)) fq < maxd := by
          have := hd.1
          unfold CalEditDistance at this
          omega
        have hdeq : CalEditDistance (unicode_strdown (fuzzy_trunc lenQ c)) fq maxd =
            levenshtein (unicode_strdown (fuzzy_trunc lenQ c)) fq := by
          unfold CalEditDistance
          omega
        have hok : FuzzyWordOK lenQ fq c := by
          refine ⟨by omega, ?_, by omega, by omega⟩
          have := hd.2
          rw [hdeq] at this
          exact this
        have hmem2 : ∀ sl ∈ slots.set (fuzzy_last_max_at slots maxd)
            ⟨some c, CalEditDistance (unicode_strdown (fuzzy_trunc lenQ c)) fq maxd⟩,
            sl.iMatchWordDistance ≤ 3 ∧
            (∀ w, sl.pMatchWord = some w → FuzzyWordOK lenQ fq w) := by
          intro sl hsl
          rcases mem_set_cases hsl with hsl | hsl
          · exact ⟨hdist sl hsl, hword sl hsl⟩
          · subst hsl
            refine ⟨by simp only []; omega, ?_⟩
            intro w hw
            simp only [Option.some_inj] at hw
            rw [← hw]
            exact hok
        refine ⟨?_, fun sl hsl => (hmem2 sl hsl).1, fun sl hsl => (hmem2 sl hsl).2⟩
        exact foldl_max_le (by omega) (fun sl hsl => (hmem2 sl hsl).1)
    · rw [if_neg hd]
      exact ⟨hmax, hdist, hword⟩

/-- C4 counterexample: with one dictionary containing the single headword
`abdxy` and the query `abc` (case-folded UCS-4 length L = 3 ≥ 2),
`LookupWithFuzzy` returns `abdxy` — the truncated comparison sees distance 1
— yet the Levenshtein distance between the case-folded query and the full
case-folded headword is 3, which exceeds 2 and is not below L. -/
theorem sdcv_C4_counterexample :
    (LookupWithFuzzy [[[97, 98, 100, 120, 121]]] [97, 98, 99] 1).2 =
      [⟨some [97, 98, 100, 120, 121], 1⟩] ∧
    2 ≤ ([97, 98, 99] : List Nat).length ∧
    levenshtein (unicode_strdown [97, 98, 100, 120, 121])
      (unicode_strdown [97, 98, 99]) = 3 ∧
    ¬(levenshtein (unicode_strdown [97, 98, 100, 120, 121])
      (unicode_strdown [97, 98, 99]) ≤ 2) ∧
    ¬(levenshtein (unicode_strdown [97, 98, 100, 120, 121])
      (unicode_strdown [97, 98, 99]) < ([97, 98, 99] : List Nat).length) :=
  ⟨by decide, by decide, by decide, by decide, by decide⟩

/-- C4 (amended): for a query whose case-folded UCS-4 length L is at least 2,
every headword returned by `LookupWithFuzzy` satisfies, after truncation to
the query length and case folding, Levenshtein distance at most 2 from the
case-folded query and strictly less than L; and its full UCS-4 length
differs from the query's by less than 3 (so a candidate whose length differs
by at least the current maximal distance is never returned). -/
theorem sdcv_C4_fuzzy_bound (oLib : List (List (List Nat))) (sWord : List Nat)
    (reslist_size : Nat) (h2 : 2 ≤ sWord.length) :
    ∀ sl ∈ (LookupWithFuzzy oLib sWord reslist_size).2, ∀ w,
      sl.pMatchWord = some w →
      levenshtein (unicode_strdown (fuzzy_trunc (sWord.length : Int) w))
        (unicode_strdown sWord) ≤ 2 ∧
      levenshtein (unicode_strdown (fuzzy_trunc (sWord.length : Int) w))
        (unicode_strdown sWord) < sWord.length ∧
      (w.length : Int) - (sWord.length : Int) < 3 ∧
      (sWord.length : Int) - (w.length : Int) < 3 := by
  have hne : sWord ≠ [] := by
    intro h
    rw [h] at h2
    simp at h2
  unfold LookupWithFuzzy
  rw [if_neg hne]
  simp only []
  have hinv : FuzzyInv (sWord.length : Int) (unicode_strdown sWord)
      (oLib.foldl
        (fun st lib => lib.foldl (fuzzy_step (sWord.length : Int)
          (unicode_strdown sWord)) st)
        (false, iMaxFuzzyDistance,
          List.replicate reslist_size ⟨none, iMaxFuzzyDistance⟩)) := by
    apply foldl_preserves (FuzzyInv (sWord.length : Int) (unicode_strdown sWord))
    · intro s lib hs
      exact foldl_preserves _ _
        (fun s2 c hs2 => fuzzy_step_inv _ _ s2 c hs2) lib s hs
    · refine ⟨by simp [iMaxFuzzyDistance], ?_, ?_⟩
      · intro sl hsl
        rw [List.eq_of_mem_replicate hsl]
        simp [iMaxFuzzyDistance]
      · intro sl hsl w hw
        rw [List.eq_of_mem_replicate hsl] at hw
        simp at hw
  intro sl hsl w hw
  obtain ⟨hlev, hlt, hdf1, hdf2⟩ := hinv.2.2 sl hsl w hw
  refine ⟨by omega, ?_, hdf1, hdf2⟩
  omega

theorem sdcv_C4_fuzzy_bound_witness :
    2 ≤ ([97, 98, 99] : List Nat).length ∧
    (∀ sl ∈ (LookupWithFuzzy [[[97, 98, 100]]] [97, 98, 99] 1).2, ∀ w,
      sl.pMatchWord = some w →
      levenshtein (unicode_strdown (fuzzy_trunc (([97, 98, 99] : List Nat).length : Int) w))
        (unicode_strdown [97, 98, 99]) ≤ 2 ∧
      levenshtein (unicode_strdown (fuzzy_trunc (([97, 98, 99] : List Nat).length : Int) w))
        (unicode_strdown [97, 98, 99]) < ([97, 98, 99] : List Nat).length ∧
      (w.length : Int) - (([97, 98, 99] : List Nat).length : Int) < 3 ∧
      (([97, 98, 99] : List Nat).length : Int) - (w.length : Int) < 3) :=
  ⟨by decide, sdcv_C4_fuzzy_bound [[[97, 98, 100]]] [97, 98, 99] 1 (by decide)⟩

theorem parseSearchWordsGo_false_nil (cur : List Nat) (acc : List (List Nat)) :
    parseSearchWordsGo false cur acc [] =
      acc ++ if cur = [] then [] else [cur] := rfl

theorem parseSearchWordsGo_false_cons (cur : List Nat) (acc : List (List Nat))
    (c : Nat) (s2 : List Nat) :
    parseSearchWordsGo false cur acc (c :: s2) =
      if c = 92 then parseSearchWordsGo true cur acc s2
      else if c = 32 then
        (if cur = [] then parseSearchWordsGo false cur acc s2
         else parseSearchWordsGo false [] (acc ++ [cur]) s2)
      else parseSearchWordsGo false (cur ++ [c]) acc s2 := rfl

theorem modifyHead_nil_append (l : List (List Nat)) :
    l.modifyHead (fun t => ([] : List Nat) ++ t) = l := by
  cases l <;> rfl

theorem splitOn_cons_sep (s : List Nat) :
    (32 :: s).splitOn 32 = [] :: s.splitOn 32 := by
  show (32 :: s).splitOnP (fun c => c == 32) = [] :: s.splitOnP (fun c => c == 32)
  rw [List.splitOnP_cons]
  simp

theorem splitOn_cons_other (c : Nat) (s : List Nat) (hc : c ≠ 32) :
    (c :: s).splitOn 32 = (s.splitOn 32).modifyHead (fun t => c :: t) := by
  show (c :: s).splitOnP (fun b => b == 32) =
    ((s.splitOnP (fun b => b == 32)).modifyHead (fun t => c :: t))
  rw [List.splitOnP_cons,
    if_neg (show ¬((c == 32) = true) by simp [hc])]

theorem splitOn_ne_nil (s : List Nat) : s.splitOn 32 ≠ [] :=
  List.splitOnP_ne_nil _ s

/-- The splitting loop on a backslash-free remainder: the result is the
accumulated tokens, then the nonempty space-separated segments with `cur`
glued onto the first segment. -/
theorem parseSearchWordsGo_splitOn :
    ∀ (s : List Nat) (cur : List Nat) (acc : List (List Nat)), 92 ∉ s →
    parseSearchWordsGo false cur acc s =
      acc ++ ((s.splitOn 32).modifyHead (fun t => cur ++ t)).filter
        (fun t => !t.isEmpty) := by
  intro s
  induction s with
  | nil =>
    intro cur acc _
    rw [parseSearchWordsGo_false_nil]
    show _ = acc ++ ([[]].modifyHead (fun t => cur ++ t)).filter (fun t => !t.isEmpty)
    by_cases hcur : cur = []
    · subst hcur
      rfl
    · rw [if_neg hcur]
      obtain ⟨c0, r, hce⟩ := List.exists_cons_of_ne_nil hcur
      subst hce
      simp
  | cons c s2 ih =>
    intro cur acc h
    have hc92 : c ≠ 92 := by
      intro he
      exact h (he ▸ List.mem_cons_self c s2)
    have h2 : 92 ∉ s2 := fun hm => h (List.mem_cons_of_mem c hm)
    rw [parseSearchWordsGo_false_cons, if_neg hc92]
    by_cases hc32 : c = 32
    · subst hc32
      rw [if_pos rfl, splitOn_cons_sep]
      by_cases hcur : cur = []
      · rw [if_pos hcur, ih cur acc h2, hcur, modifyHead_nil_append,
          modifyHead_nil_append]
        rw [show List.filter (fun t => !t.isEmpty) (([] : List Nat) :: s2.splitOn 32) =
          List.filter (fun t => !t.isEmpty) (s2.splitOn 32) from rfl]
      · rw [if_neg hcur, ih [] (acc ++ [cur]) h2, modifyHead_nil_append]
        obtain ⟨c0, r, hce⟩ := List.exists_cons_of_ne_nil hcur
        subst hce
        rw [show List.modifyHead (fun t => (c0 :: r) ++ t)
            (([] : List Nat) :: s2.splitOn 32) =
          ((c0 :: r) ++ []) :: s2.splitOn 32 from rfl]
        rw [show List.filter (fun t => !t.isEmpty) (((c0 :: r) ++ []) :: s2.splitOn 32) =
          ((c0 :: r) ++ []) :: List.filter (fun t => !t.isEmpty) (s2.splitOn 32) from rfl]
        simp [List.append_assoc]
    · rw [if_neg hc32, ih (cur ++ [c]) acc h2, splitOn_cons_other c s2 hc32]
      obtain ⟨h1, t1, hsp⟩ := List.exists_cons_of_ne_nil (splitOn_ne_nil s2)
      rw [hsp]
      rw [show List.modifyHead (fun t => c :: t) (h1 :: t1) = (c :: h1) :: t1 from rfl]
      rw [show List.modifyHead (fun t => cur ++ t) ((c :: h1) :: t1) =
        (cur ++ (c :: h1)) :: t1 from rfl]
      rw [show List.modifyHead (fun t => (cur ++ [c]) ++ t) (h1 :: t1) =
        ((cur ++ [c]) ++ h1) :: t1 from rfl]
      rw [List.append_cons cur c h1]

/-- For a backslash-free query the needle list is exactly the nonempty
segments between space bytes. -/
theorem parseSearchWords_splitOn (s : List Nat) (h : 92 ∉ s) :
    parseSearchWords s = (s.splitOn 32).filter (fun t => !t.isEmpty) := by
  rw [parseSearchWords, parseSearchWordsGo_splitOn s [] [] h]
  obtain ⟨h1, t1, hsp⟩ := List.exists_cons_of_ne_nil (splitOn_ne_nil s)
  rw [hsp]
  rfl

theorem markFound_cons (w : List Nat) (ws : List (List Nat)) (f : Bool)
    (fs : List Bool) (t : List Nat) :
    markFound (w :: ws) (f :: fs) t = (f || strstrB t w) :: markFound ws fs t := rfl

theorem schemaSearchGo_single (ws : List (List Nat)) (data : List Nat)
    (size c pos : Nat) (found : List Bool) :
    schemaSearchGo ws data size [c] pos found =
      if c ∈ searchTypes then
        (markFound ws found
          (((data.drop pos).take (size - pos)).takeWhile (fun b => decide (b ≠ 0)))).all id
      else false := rfl

theorem schemaSearchGo_cons2 (ws : List (List Nat)) (data : List Nat)
    (size c c2 : Nat) (sts : List Nat) (pos : Nat) (found : List Bool) :
    schemaSearchGo ws data size (c :: c2 :: sts) pos found =
      if c ∈ searchTypes then
        (if (markFound ws found (cstr_at data pos)).all id then true
         else schemaSearchGo ws data size (c2 :: sts)
           (pos + (cstr_at data pos).length + 1)
           (markFound ws found (cstr_at data pos)))
      else schemaSearchGo ws data size (c2 :: sts) (pos + fieldSkip data pos c) found := rfl

theorem schemaTexts_single (data : List Nat) (size c pos : Nat) :
    schemaTexts data size [c] pos =
      if c ∈ searchTypes then
        [((data.drop pos).take (size - pos)).takeWhile (fun b => decide (b ≠ 0))]
      else [] := rfl

theorem schemaTexts_cons2 (data : List Nat) (size c c2 : Nat) (sts : List Nat)
    (pos : Nat) :
    schemaTexts data size (c :: c2 :: sts) pos =
      if c ∈ searchTypes then
        cstr_at data pos ::
          schemaTexts data size (c2 :: sts) (pos + (cstr_at data pos).length + 1)
      else schemaTexts data size (c2 :: sts) (pos + fieldSkip data pos c) := rfl

theorem taglessSearchGo_succ (ws : List (List Nat)) (data : List Nat)
    (size fuel pos : Nat) (found : List Bool) :
    taglessSearchGo ws data size (fuel + 1) pos found =
      if pos < size then
        if data.getD pos 0 ∈ searchTypes then
          (if (markFound ws found (cstr_at data pos)).all id then true
           else taglessSearchGo ws data size fuel
             (pos + (cstr_at data pos).length + 1)
             (markFound ws found (cstr_at data pos)))
        else taglessSearchGo ws data size fuel
          (pos + fieldSkip data pos (data.getD pos 0)) found
      else false := rfl

theorem taglessTextsGo_succ (data : List Nat) (size fuel pos : Nat) :
    taglessTextsGo data size (fuel + 1) pos =
      if pos < size then
        if data.getD pos 0 ∈ searchTypes then
          cstr_at data pos ::
            taglessTextsGo data size fuel (pos + (cstr_at data pos).length + 1)
        else taglessTextsGo data size fuel (pos + fieldSkip data pos (data.getD pos 0))
      else [] := rfl

theorem foldl_markFound_nil_start (ws : List (List Nat)) :
    ∀ texts : List (List Nat), texts.foldl (markFound ws) [] = [] := by
  intro texts
  induction texts with
  | nil => rfl
  | cons t ts ih =>
    rw [List.foldl_cons]
    show ts.foldl (markFound ws) [] = []
    exact ih

theorem foldl_markFound_cons (w : List Nat) (ws : List (List Nat)) :
    ∀ (texts : List (List Nat)) (f : Bool) (fs : List Bool),
    texts.foldl (markFound (w :: ws)) (f :: fs) =
      texts.foldl (fun b t => b || strstrB t w) f ::
        texts.foldl (markFound ws) fs := by
  intro texts
  induction texts with
  | nil => intro f fs; rfl
  | cons t ts ih =>
    intro f fs
    rw [List.foldl_cons, markFound_cons, ih, List.foldl_cons, List.foldl_cons]

theorem foldl_or_strstr (w : List Nat) :
    ∀ (texts : List (List Nat)) (f : Bool),
    texts.foldl (fun b t => b || strstrB t w) f =
      (f || texts.any (fun t => strstrB t w)) := by
  intro texts
  induction texts with
  | nil => intro f; simp
  | cons t ts ih =>
    intro f
    rw [List.foldl_cons, ih, List.any_cons, Bool.or_assoc]

theorem foldl_markFound_all :
    ∀ (ws : List (List Nat)) (found : List Bool) (texts : List (List Nat)),
    found.length = ws.length →
    (texts.foldl (markFound ws) found).all id =
      (found.zip ws).all (fun fw => fw.1 || texts.any (fun t => strstrB t fw.2)) := by
  intro ws
  induction ws with
  | nil =>
    intro found texts hlen
    have : found = [] := List.length_eq_zero.mp hlen
    subst this
    rw [foldl_markFound_nil_start]
    rfl
  | cons w ws ih =>
    intro found texts hlen
    match found with
    | f :: fs =>
      rw [foldl_markFound_cons, List.all_cons, foldl_or_strstr,
        ih fs texts (by simpa using hlen)]
      rfl

theorem zip_false_all (texts : List (List Nat)) :
    ∀ ws : List (List Nat),
    ((ws.map (fun _ => false)).zip ws).all
        (fun fw => fw.1 || texts.any (fun t => strstrB t fw.2)) =
      ws.all (fun w => texts.any (fun t => strstrB t w)) := by
  intro ws
  induction ws with
  | nil => rfl
  | cons w ws ih =>
    rw [show ((w :: ws).map (fun _ => false)) = false :: ws.map (fun _ => false) from rfl,
      List.zip_cons_cons, List.all_cons, List.all_cons, ← ih]
    rw [show ((false, w).1 || texts.any (fun t => strstrB t (false, w).2)) =
      texts.any (fun t => strstrB t w) from by simp]

theorem markFound_all_id (ws : List (List Nat)) (found : List Bool)
    (t : List Nat) (h : found.all id = true) :
    (markFound ws found t).all id = true := by
  rw [List.all_eq_true] at h ⊢
  intro x hx
  rw [markFound] at hx
  rw [List.mem_map] at hx
  obtain ⟨fw, hfw, hxe⟩ := hx
  obtain ⟨a, b⟩ := fw
  have ha := h a (List.of_mem_zip hfw).1
  simp only [id] at ha
  rw [← hxe]
  simp [ha]

theorem foldl_markFound_true (ws : List (List Nat)) :
    ∀ (texts : List (List Nat)) (found : List Bool), found.all id = true →
    (texts.foldl (markFound ws) found).all id = true := by
  intro texts
  induction texts with
  | nil => intro found h; exact h
  | cons t ts ih =>
    intro found h
    rw [List.foldl_cons]
    exact ih _ (markFound_all_id ws found t h)

theorem schemaSearchGo_texts (ws : List (List Nat)) (data : List Nat)
    (size : Nat) :
    ∀ (sts : List Nat) (pos : Nat) (found : List Bool),
    found.all id = false →
    schemaSearchGo ws data size sts pos found =
      ((schemaTexts data size sts pos).foldl (markFound ws) found).all id := by
  intro sts
  induction sts with
  | nil =>
    intro pos found hf
    show false = found.all id
    rw [hf]
  | cons c sts ih =>
    intro pos found hf
    match sts with
    | [] =>
      rw [schemaSearchGo_single, schemaTexts_single]
      by_cases hc : c ∈ searchTypes
      · rw [if_pos hc, if_pos hc]
        rfl
      · rw [if_neg hc, if_neg hc]
        show false = found.all id
        rw [hf]
    | c2 :: sts2 =>
      rw [schemaSearchGo_cons2, schemaTexts_cons2]
      by_cases hc : c ∈ searchTypes
      · rw [if_pos hc, if_pos hc]
        by_cases hall : (markFound ws found (cstr_at data pos)).all id = true
        · rw [if_pos hall, List.foldl_cons]
          rw [foldl_markFound_true ws _ _ hall]
        · rw [if_neg hall, List.foldl_cons]
          exact ih _ _ (Bool.eq_false_iff.mpr hall)
      · rw [if_neg hc, if_neg hc]
        exact ih _ _ hf

theorem taglessSearchGo_texts (ws : List (List Nat)) (data : List Nat)
    (size : Nat) :
    ∀ (fuel pos : Nat) (found : List Bool),
    found.all id = false →
    taglessSearchGo ws data size fuel pos found =
      ((taglessTextsGo data size fuel pos).foldl (markFound ws) found).all id := by
  intro fuel
  induction fuel with
  | zero =>
    intro pos found hf
    show false = found.all id
    rw [hf]
  | succ fuel ih =>
    intro pos found hf
    rw [taglessSearchGo_succ, taglessTextsGo_succ]
    by_cases hp : pos < size
    · rw [if_pos hp, if_pos hp]
      by_cases hc : data.getD pos 0 ∈ searchTypes
      · rw [if_pos hc, if_pos hc]
        by_cases hall : (markFound ws found (cstr_at data pos)).all id = true
        · rw [if_pos hall, List.foldl_cons]
          rw [foldl_markFound_true ws _ _ hall]
        · rw [if_neg hall, List.foldl_cons]
          exact ih _ _ (Bool.eq_false_iff.mpr hall)
      · rw [if_neg hc, if_neg hc]
        exact ih _ _ hf
    · rw [if_neg hp, if_neg hp]
      show false = found.all id
      rw [hf]

theorem map_false_all_id (ws : List (List Nat)) (hws : ws ≠ []) :
    (ws.map (fun _ => false)).all id = false := by
  match ws with
  | w :: ws2 => rfl

theorem SearchData_texts (ws : List (List Nat)) (sts data : List Nat)
    (size : Nat) (hws : ws ≠ []) :
    SearchData ws sts data size =
      ws.all (fun w => (searchedTexts sts data size).any (fun t => strstrB t w)) := by
  have hinit := map_false_all_id ws hws
  have hlen : (ws.map (fun _ => false)).length = ws.length := List.length_map _ _
  rw [SearchData, searchedTexts]
  by_cases hsts : sts = []
  · rw [if_pos hsts, if_pos hsts,
      taglessSearchGo_texts ws data size (size + 1) 0 _ hinit,
      foldl_markFound_all ws _ _ hlen, zip_false_all]
  · rw [if_neg hsts, if_neg hsts,
      schemaSearchGo_texts ws data size sts 0 _ hinit,
      foldl_markFound_all ws _ _ hlen, zip_false_all]

/-- C5 counterexample. First: TAB (or any whitespace other than the space
byte) does not separate needles — the query `a<TAB>b` yields the single
needle `a<TAB>b`, not `a`,`b`. Second: in a tagless record `m x NUL` the
scanned text starts at the tag byte, so the needle `m` is "found" although
the only string field's content is `x`. Third: with schema `h` the single
(string-typed, html) field is never searched, so the needle `x` is missed
although the field content contains it. -/
theorem sdcv_C5_counterexample :
    (g_ascii_isspace 9 = true ∧
      parseSearchWords [97, 9, 98] = [[97, 9, 98]] ∧
      parseSearchWords [97, 9, 98] ≠ [[97], [98]]) ∧
    (SearchData [[109]] [] [109, 120, 0] 3 = true ∧
      taglessContents [109, 120, 0] 3 = [[120]] ∧
      strstrB [120] [109] = false) ∧
    (SearchData [[120]] [104] [120, 0] 2 = false ∧
      cstr_at [120, 0] 0 = [120] ∧
      strstrB [120] [120] = true) :=
  ⟨⟨by decide, by decide, by decide⟩,
   ⟨by decide, by decide, by decide⟩,
   ⟨by decide, by decide, by decide⟩⟩

/-- C5 (amended): the raw query is split into needles only at unescaped
SPACE bytes (0x20; other whitespace does not separate), with the escape
table backslash-backslash, backslash-space, `\t`, `\n` and literal
fall-through, empty needles dropped; an empty needle list returns false at
once; otherwise, per data-search-capable dictionary, exactly those headwords
are kept whose record contains every needle as a substring of some text the
scan consults — where the consulted texts are the fields of the seven
lowercase string types `m t y l g x k` only, each taken as the
NUL-terminated string starting AT the type tag for tagless records (the tag
byte itself is searched), and the final schema field limited to the
remaining record bytes. -/
theorem sdcv_C5_data_search :
    (∀ s : List Nat, 92 ∉ s →
      parseSearchWords s = (s.splitOn 32).filter (fun t => !t.isEmpty)) ∧
    (∀ (ws : List (List Nat)) (sts data : List Nat) (size : Nat), ws ≠ [] →
      SearchData ws sts data size =
        ws.all (fun w => (searchedTexts sts data size).any (fun t => strstrB t w))) ∧
    (∀ (sWord : List Nat) (oLib : List DataDict), parseSearchWords sWord = [] →
      LookupData sWord oLib = (false, oLib.map (fun _ => []))) ∧
    (∀ (sWord : List Nat) (oLib : List DataDict), parseSearchWords sWord ≠ [] →
      (LookupData sWord oLib).2 = oLib.map (fun d =>
        if containSearchData d.sametypesequence then
          (d.entries.filter (fun e => (parseSearchWords sWord).all
            (fun w => (searchedTexts d.sametypesequence e.data e.data.length).any
              (fun t => strstrB t w)))).map (fun e => e.key)
        else []) ∧
      (LookupData sWord oLib).1 =
        (LookupData sWord oLib).2.any (fun l => !l.isEmpty)) := by
  refine ⟨parseSearchWords_splitOn, SearchData_texts, ?_, ?_⟩
  · intro sWord oLib hz
    simp only [LookupData]
    rw [if_pos hz]
  · intro sWord oLib hne
    refine ⟨?_, ?_⟩
    · simp only [LookupData]
      rw [if_neg hne]
      show oLib.map _ = oLib.map _
      apply List.map_congr_left
      intro d _
      by_cases hcd : containSearchData d.sametypesequence = true
      · rw [if_pos hcd, if_pos hcd]
        rw [List.filter_congr (fun e _ =>
          SearchData_texts (parseSearchWords sWord) d.sametypesequence e.data
            e.data.length hne)]
      · rw [if_neg hcd, if_neg hcd]
    · simp only [LookupData]
      rw [if_neg hne]

theorem sdcv_C5_data_search_witness :
    (92 ∉ ([97, 32, 98] : List Nat) ∧
      parseSearchWords [97, 32, 98] =
        (([97, 32, 98] : List Nat).splitOn 32).filter (fun t => !t.isEmpty)) ∧
    (([[97, 98]] : List (List Nat)) ≠ [] ∧
      SearchData [[97, 98]] [] [109, 97, 98, 0] 4 =
        ([[97, 98]] : List (List Nat)).all
          (fun w => (searchedTexts [] [109, 97, 98, 0] 4).any (fun t => strstrB t w))) ∧
    (parseSearchWords [32] = [] ∧
      LookupData [32] [⟨[], [⟨[107], [109, 97, 98, 0]⟩]⟩] =
        (false, ([⟨[], [⟨[107], [109, 97, 98, 0]⟩]⟩] : List DataDict).map (fun _ => []))) ∧
    (parseSearchWords [97, 98] ≠ [] ∧
      (LookupData [97, 98] [⟨[], [⟨[107], [109, 97, 98, 0]⟩]⟩]).2 =
        ([⟨[], [⟨[107], [109, 97, 98, 0]⟩]⟩] : List DataDict).map (fun d =>
          if containSearchData d.sametypesequence then
            (d.entries.filter (fun e => (parseSearchWords [97, 98]).all
              (fun w => (searchedTexts d.sametypesequence e.data e.data.length).any
                (fun t => strstrB t w)))).map (fun e => e.key)
          else []) ∧
      (LookupData [97, 98] [⟨[], [⟨[107], [109, 97, 98, 0]⟩]⟩]).1 =
        (LookupData [97, 98] [⟨[], [⟨[107], [109, 97, 98, 0]⟩]⟩]).2.any
          (fun l => !l.isEmpty)) :=
  ⟨⟨by decide, sdcv_C5_data_search.1 [97, 32, 98] (by decide)⟩,
   ⟨by decide, sdcv_C5_data_search.2.1 [[97, 98]] [] [109, 97, 98, 0] 4 (by decide)⟩,
   ⟨by decide, sdcv_C5_data_search.2.2.1 [32] _ (by decide)⟩,
   ⟨by decide, sdcv_C5_data_search.2.2.2 [97, 98] _ (by decide)⟩⟩

end Sdcv
